import Mathlib

/-!
Verification development for the fra_amtrak repository.

The pandas DataFrames of the source are shallowly embedded as Lean lists:
numeric cells are rationals (the source computes with float64; the claims under
check are about the defining formulas, which are exact over ℚ), missing values
(NaN) are `Option.none`, and a raised Python exception is an `Except.error` /
`Option.none` result.  Each embedded function is translated line by line from
the cited source file.
-/

namespace FraAmtrak

/-- Sum of a list of rationals (pandas Series.sum). -/
def sumQ (l : List ℚ) : ℚ := l.foldr (· + ·) 0

/-- Minimum of a list of rationals (0 on the empty list; every use below is on
a nonempty list). -/
def listMinQ : List ℚ → ℚ
  | [] => 0
  | a :: t => t.foldl min a

/-- Maximum of a list of rationals (0 on the empty list). -/
def listMaxQ : List ℚ → ℚ
  | [] => 0
  | a :: t => t.foldl max a

/-- The q-quantile with linear interpolation, exactly as pandas
`Series.quantile` / `DataFrame.describe` compute it: on the sorted values
`s[0] .. s[n-1]` the quantile sits at position `h = q*(n-1)` and is
`s[floor h] + (h - floor h) * (s[floor h + 1] - s[floor h])`. -/
def quantile (l : List ℚ) (q : ℚ) : ℚ :=
  let s := List.insertionSort (· ≤ ·) l
  let h := q * ((s.length : ℚ) - 1)
  let i := (⌊h⌋).toNat
  let lo := s.getD i 0
  let hi := s.getD (i + 1) lo
  lo + (h - (⌊h⌋ : ℚ)) * (hi - lo)

/-- Round to the nearest integer, ties to even: the rounding used by
numpy/pandas `round`. -/
def roundHalfEven (x : ℚ) : ℤ :=
  let f := ⌊x⌋
  let frac := x - (f : ℚ)
  if frac < 1/2 then f
  else if 1/2 < frac then f + 1
  else if f % 2 = 0 then f else f + 1

/-- pandas `round(precision)`: round to `p` decimal places, ties to even. -/
def roundTo (x : ℚ) (p : ℕ) : ℚ := (roundHalfEven (x * 10 ^ p) : ℚ) / 10 ^ p

/-- Keep the first occurrence of each element, in order: the deduplication
order of pandas `drop_duplicates`. -/
def dedupFirst {α : Type} [DecidableEq α] (l : List α) : List α :=
  l.foldl (fun acc a => if a ∈ acc then acc else acc ++ [a]) []

/-!
## amtk_frame.aggregate_data (amtk_frame.py lines 8-72)

The input frame is specialised to the three columns the function touches:
`columns[0]` (the grouping column, encoded as a natural number), `columns[1]`
(the numeric value column) and `"Color"` (encoded as a natural number).
-/

/-- One row of the frame passed to `aggregate_data`. -/
structure Row where
  grp : ℕ
  val : ℚ
  color : ℕ
  deriving DecidableEq, Repr

/-- The distinct values of the grouping column in ascending order: pandas
`groupby` sorts the group keys. -/
def keys (rows : List Row) : List ℕ :=
  List.insertionSort (· ≤ ·) (rows.map Row.grp).dedup

/-- The value column of one group, in original row order. -/
def groupVals (rows : List Row) (g : ℕ) : List ℚ :=
  (rows.filter (fun r => r.grp == g)).map Row.val

/-- The column `min_ = 25% - k * iqr` of a group (amtk_frame.py lines 27-28). -/
def whiskerMin (rows : List Row) (k : ℚ) (g : ℕ) : ℚ :=
  quantile (groupVals rows g) (1/4)
    - k * (quantile (groupVals rows g) (3/4) - quantile (groupVals rows g) (1/4))

/-- The column `max_ = 75% + k * iqr` of a group (amtk_frame.py lines 27, 29). -/
def whiskerMax (rows : List Row) (k : ℚ) (g : ℕ) : ℚ :=
  quantile (groupVals rows g) (3/4)
    + k * (quantile (groupVals rows g) (3/4) - quantile (groupVals rows g) (1/4))

/-- The rows `data_points[mask_lower]` (amtk_frame.py line 35): the frame rows whose
value is at least the `min_` of their own group (`data_points` is the left
merge of the frame with the per-group `min_`/`max_` columns). -/
def lowerRows (rows : List Row) (k : ℚ) : List Row :=
  rows.filter (fun r => decide (whiskerMin rows k r.grp ≤ r.val))

/-- The Series assigned to `agg_stats["lower"]` (amtk_frame.py lines 36-38):
per-group minima of the mask-filtered rows, in group-key order, after
`reset_index(drop=True)`, i.e. to be consumed positionally. -/
def lowerCol (rows : List Row) (k : ℚ) : List (Option ℚ) :=
  (keys (lowerRows rows k)).map (fun g => (groupVals (lowerRows rows k) g).min?)

/-- The rows `data_points[mask_upper]` (amtk_frame.py line 41). -/
def upperRows (rows : List Row) (k : ℚ) : List Row :=
  rows.filter (fun r => decide (r.val ≤ whiskerMax rows k r.grp))

/-- The Series assigned to `agg_stats["upper"]` (amtk_frame.py lines 42-44). -/
def upperCol (rows : List Row) (k : ℚ) : List (Option ℚ) :=
  (keys (upperRows rows k)).map (fun g => (groupVals (upperRows rows k) g).max?)

/-- One row of the `agg_stats` result of `aggregate_data`.  The `std` column
of `describe()` is omitted: it is irrational-valued (square root) and nothing
in the function or the claims reads it. -/
structure AggRow where
  grp : ℕ
  count : ℕ
  mean : ℚ
  vmin : ℚ
  q25 : ℚ
  q50 : ℚ
  q75 : ℚ
  vmax : ℚ
  iqr : ℚ
  min_ : ℚ
  max_ : ℚ
  lower : Option ℚ
  upper : Option ℚ
  outliers : List ℚ
  color : ℕ
  deriving DecidableEq, Repr

/-- Colors attached to a group: `frame[[columns[0], "Color"]]
.drop_duplicates()` left-merged on the group key (amtk_frame.py lines 58-60).
A group whose rows carry several distinct colors yields several merged rows. -/
def colorsOf (rows : List Row) (g : ℕ) : List ℕ :=
  ((dedupFirst (rows.map (fun r => (r.grp, r.color)))).filter
    (fun p => p.1 == g)).map Prod.snd

/-- One assembled `agg_stats` row for group `g` (describe statistics, iqr and
whisker bounds of lines 21-29, the positionally assigned lower/upper values,
and the outlier list of lines 47-51: the group values strictly outside the
whisker bounds, in original row order; groups without outliers keep the empty
list initialised on line 54). -/
def aggRow (rows : List Row) (k : ℚ) (g : ℕ) (lower upper : Option ℚ)
    (c : ℕ) : AggRow :=
  { grp := g
    count := (groupVals rows g).length
    mean := sumQ (groupVals rows g) / ((groupVals rows g).length : ℚ)
    vmin := listMinQ (groupVals rows g)
    q25 := quantile (groupVals rows g) (1/4)
    q50 := quantile (groupVals rows g) (1/2)
    q75 := quantile (groupVals rows g) (3/4)
    vmax := listMaxQ (groupVals rows g)
    iqr := quantile (groupVals rows g) (3/4) - quantile (groupVals rows g) (1/4)
    min_ := whiskerMin rows k g
    max_ := whiskerMax rows k g
    lower := lower
    upper := upper
    outliers := (groupVals rows g).filter
      (fun v => decide (v < whiskerMin rows k g) || decide (whiskerMax rows k g < v))
    color := c }

/-- The function `aggregate_data(frame, columns, k)` (amtk_frame.py lines 8-72).  The i-th
group row receives entry i of the positionally aligned lower/upper Series (a
position beyond their length reads as NaN, i.e. `Option.none`). -/
def aggregate_data (rows : List Row) (k : ℚ) : List AggRow :=
  (List.range (keys rows).length).flatMap (fun i =>
    (colorsOf rows ((keys rows).getD i 0)).map
      (aggRow rows k ((keys rows).getD i 0)
        ((lowerCol rows k).getD i Option.none)
        ((upperCol rows k).getD i Option.none)))

/-- Sample frame for the witnesses: two groups with values {1, 3} and {5}. -/
def wRows : List Row := [⟨0, 1, 5⟩, ⟨0, 3, 5⟩, ⟨1, 5, 6⟩]

/-- The first output row of `aggregate_data` on the sample frame. -/
def wAgg0 : AggRow :=
  aggRow wRows (3/2) 0 ((lowerCol wRows (3/2)).getD 0 Option.none)
    ((upperCol wRows (3/2)).getD 0 Option.none) 5

/-- The second output row of `aggregate_data` on the sample frame. -/
def wAgg1 : AggRow :=
  aggRow wRows (3/2) 1 ((lowerCol wRows (3/2)).getD 1 Option.none)
    ((upperCol wRows (3/2)).getD 1 Option.none) 6

/-- Counterexample frame for C2: with k = -2 the first group has no value
inside the whisker bounds, so it drops out of the mask-filtered groupby and
the positional assignment of the lower/upper Series misaligns. -/
def cexRows : List Row := [⟨0, 0, 0⟩, ⟨0, 10, 0⟩, ⟨1, 0, 0⟩, ⟨1, 0, 0⟩]

/-!
## amtk_frame.create_bins (amtk_frame.py lines 118-143)

The frame is specialised to its single binned numeric column (`frame[column]`)
plus the contents of the `"bin"` column, which line 137 writes in place into
the caller frame (`frame["bin"] = ...`); `bin = Option.none` models a frame
without that column.
-/

/-- A frame passed to `create_bins`: the binned numeric column and the
optional "bin" column. -/
structure BinFrame where
  data : List ℚ
  bin : Option (List ℤ)
  deriving DecidableEq, Repr

/-- numpy `arange(start, stop, step)` over ℚ for a positive step: the values
`start + j*step` for `0 ≤ j < ceil((stop - start)/step)`. -/
def arange (start stop step : ℚ) : List ℚ :=
  (List.range (⌈(stop - start) / step⌉.toNat)).map
    (fun (j : ℕ) => start + (j : ℚ) * step)

/-- numpy `digitize(v, bins)` (right=False) on a strictly ascending edge list:
the number of edges that are ≤ v. -/
def digitize (v : ℚ) (bins : List ℚ) : ℕ :=
  (bins.filter (fun b => decide (b ≤ v))).length

/-- The bin edges of `create_bins` (amtk_frame.py lines 130-134):
`arange(floor(min/width)*width, ceil(max/width)*width + width, width)`. -/
def binEdges (data : List ℚ) (bin_width : ℚ) : List ℚ :=
  arange ((⌊listMinQ data / bin_width⌋ : ℚ) * bin_width)
    ((⌈listMaxQ data / bin_width⌉ : ℚ) * bin_width + bin_width) bin_width

/-- The "bin" column (amtk_frame.py lines 137 and 140): `digitize - 1`, with
rows whose value equals the last edge `bins[-1]` moved to `len(bins) - 2`. -/
def binColumn (data : List ℚ) (bin_width : ℚ) : List ℤ :=
  data.map (fun v =>
    if v = (binEdges data bin_width).getD ((binEdges data bin_width).length - 1) 0
    then ((binEdges data bin_width).length : ℤ) - 2
    else (digitize v (binEdges data bin_width) : ℤ) - 1)

/-- The function `create_bins(frame, column, bin_width)` (amtk_frame.py lines 118-143).
The first component is simultaneously the returned frame and the state of the
caller frame after the call: line 137 assigns the bin column into the
argument object in place. -/
def create_bins (frame : BinFrame) (bin_width : ℚ) : BinFrame × List ℚ × ℕ × ℚ :=
  (⟨frame.data, some (binColumn frame.data bin_width)⟩,
   binEdges frame.data bin_width,
   (binEdges frame.data bin_width).length - 1,
   bin_width)

/-!
## amtk_network.add_stations_to_route (amtk_network.py lines 5-25)

Rows of a route/stations frame keep the columns the function touches:
the arrival station code, the "Train Number" column (`Option.none` when the
column is absent or NaN), and latitude/longitude (used by `create_route`).
-/

/-- A row of a train-route / stations frame. -/
structure RouteRow where
  code : String
  trainNumber : Option ℤ
  lat : ℚ
  lon : ℚ
  deriving DecidableEq, Repr

/-- Comparison key of `sort_values(by="Arrival Station Code",
key=lambda x: x.map(station_order))`: codes missing from the dictionary map
to NaN, which pandas sorts last. -/
def ordLe (ord : List (String × ℤ)) (a b : RouteRow) : Bool :=
  match ord.lookup a.code, ord.lookup b.code with
  | some x, some y => decide (x ≤ y)
  | some _, Option.none => true
  | Option.none, some _ => false
  | Option.none, Option.none => true

/-- The function `add_stations_to_route(train, stations, station_order)` (amtk_network.py
lines 5-25).  The first component is the returned route; the second is the
state of the caller `stations` frame after the call: line 19 writes the
"Train Number" column (`train["Train Number"].iloc[0]`) into it in place. -/
def add_stations_to_route (train stations : List RouteRow)
    (station_order : List (String × ℤ)) : List RouteRow × List RouteRow :=
  let stationsAfter := stations.map
    (fun r => { r with trainNumber := train.head?.bind RouteRow.trainNumber })
  (List.insertionSort (fun a b => ordLe station_order a b = true)
    (train ++ stationsAfter),
   stationsAfter)

/-!
## amtk_network.filter_stations (amtk_network.py lines 156-201)
-/

/-- A Python value as it appears in frame cells and filter arguments. -/
inductive PyVal where
  | none
  | str (s : String)
  | int (n : ℤ)
  | float (q : ℚ)
  | bool (b : Bool)
  deriving DecidableEq, Repr

/-- Python truthiness (`if column:` / `if year:` tests): None, empty strings,
numeric zero and False are falsy. -/
def PyVal.truthy : PyVal → Bool
  | .none => false
  | .str s => s != ""
  | .int n => n != 0
  | .float q => q != 0
  | .bool b => b

/-- Python `isinstance(x, int)` (bools are ints in Python). -/
def PyVal.isInstInt : PyVal → Bool
  | .int _ => true
  | .bool _ => true
  | _ => false

/-- Numeric view used by Python `==`: ints, floats and bools compare by
numeric value. -/
def PyVal.toNum : PyVal → Option ℚ
  | .int n => some (n : ℚ)
  | .float q => some q
  | .bool b => some (if b then 1 else 0)
  | _ => Option.none

/-- Python `==` on the embedded values. -/
def pyEq (a b : PyVal) : Bool :=
  match a.toNum, b.toNum with
  | some x, some y => x == y
  | _, _ => a == b

/-- A stations DataFrame: named columns and rows carrying their index label
(`reset_index(drop=True)` renumbers the labels 0..n-1).  Cells are addressed
positionally through the column list. -/
structure StFrame where
  cols : List String
  rows : List (ℕ × List PyVal)
  deriving DecidableEq, Repr

/-- The Series `stations[c]`, in row order. -/
def colValues (s : StFrame) (c : String) : List PyVal :=
  s.rows.map (fun r => r.2.getD (s.cols.indexOf c) PyVal.none)

/-- Python exceptions raised by the embedded functions. -/
inductive PyErr where
  | valueError (msg : String)
  | typeError (msg : String)
  | keyError (msg : String)
  deriving DecidableEq, Repr

/-- The validity test the source applies to each quarter (line 194):
`isinstance(num, int) and num in (1, 2, 3, 4)`. -/
def quartersOk (quarters : List PyVal) : Bool :=
  quarters.all (fun q => q.isInstInt &&
    (pyEq q (.int 1) || pyEq q (.int 2) || pyEq q (.int 3) || pyEq q (.int 4)))

/-- The column/value stage of the mask (amtk_network.py lines 179-186): a
truthy `column` must name an existing column and come with a non-None value,
and then restricts the all-True mask elementwise. -/
def maskColumn (s : StFrame) (column value : PyVal) : Except PyErr (List Bool) :=
  if column.truthy then
    match column with
    | .str c =>
      if c ∈ s.cols then
        if value = PyVal.none then
          Except.error (.valueError "Invalid or missing < value >.")
        else
          Except.ok (List.zipWith and (s.rows.map fun _ => true)
            ((colValues s c).map (fun v => pyEq v value)))
      else Except.error (.valueError "Invalid < column > name.")
    | _ => Except.error (.valueError "Invalid < column > name.")
  else Except.ok (s.rows.map fun _ => true)

/-- The year/quarters stage of the mask (amtk_network.py lines 188-196):
a truthy `year` must be an int, the "Fiscal Year" column is read (KeyError if
absent), and non-empty quarters must all pass the validity test before the
"Fiscal Quarter" column is read. -/
def maskYear (s : StFrame) (year : PyVal) (quarters : List PyVal)
    (m : List Bool) : Except PyErr (List Bool) :=
  if year.truthy then
    if year.isInstInt then
      if "Fiscal Year" ∈ s.cols then
        if quarters ≠ [] then
          if quartersOk quarters then
            if "Fiscal Quarter" ∈ s.cols then
              Except.ok (List.zipWith and
                (List.zipWith and m ((colValues s "Fiscal Year").map (fun v => pyEq v year)))
                ((colValues s "Fiscal Quarter").map
                  (fun v => quarters.any (fun q => pyEq v q))))
            else Except.error (.keyError "Fiscal Quarter")
          else Except.error (.valueError "Only 1-4 quarters can be specified.")
        else Except.ok (List.zipWith and m
          ((colValues s "Fiscal Year").map (fun v => pyEq v year)))
      else Except.error (.keyError "Fiscal Year")
    else Except.error (.typeError "Invalid < year > type.")
  else Except.ok m

/-- The filtering mask of `filter_stations`, or the exception raised while
building it. -/
def stationsMask (s : StFrame) (column value year : PyVal)
    (quarters : List PyVal) : Except PyErr (List Bool) :=
  match maskColumn s column value with
  | .error e => .error e
  | .ok m => maskYear s year quarters m

/-- pandas `reset_index(drop=True)`: relabel rows 0..n-1. -/
def resetIndex (rows : List (ℕ × List PyVal)) : List (ℕ × List PyVal) :=
  (List.range rows.length).zip (rows.map Prod.snd)

/-- Boolean-mask row selection, positional. -/
def applyMask (rows : List (ℕ × List PyVal)) (mask : List Bool) :
    List (ℕ × List PyVal) :=
  ((rows.zip mask).filter (fun p => p.2)).map Prod.fst

/-- The function `filter_stations(stations, column, value, year, *quarters)`
(amtk_network.py lines 156-201): build the mask, and return the input frame
itself when the mask stayed all True, otherwise the masked rows with the index
reset. -/
def filter_stations (stations : StFrame) (column value year : PyVal)
    (quarters : List PyVal) : Except PyErr StFrame :=
  match stationsMask stations column value year quarters with
  | .error e => .error e
  | .ok mask =>
    if mask.all (fun b => b) then Except.ok stations
    else Except.ok ⟨stations.cols, resetIndex (applyMask stations.rows mask)⟩

/-- The membership test of line 182, `column not in stations.columns`,
negated: a non-string never names a column. -/
def columnOk (s : StFrame) (column : PyVal) : Bool :=
  match column with
  | .str c => decide (c ∈ s.cols)
  | _ => false

/-- Sample stations frame (numeric cells). -/
def cexStations : StFrame :=
  ⟨["Fiscal Year", "Fiscal Quarter"], [(0, [PyVal.int 2023, PyVal.int 1])]⟩

/-- Sample stations frame (string cells). -/
def wStations : StFrame := ⟨["Service"], [(0, [PyVal.str "Acela"])]⟩

/-!
## amtk_network.create_route (amtk_network.py lines 114-153)
-/

/-- Lexicographic sort key of `sort_values(by=[primary, secondary],
ascending=[True, True])`: strictly smaller primary, or equal primary and
smaller-or-equal secondary.  Descending primaries are obtained by swapping the
primary arguments. -/
def routeLe (pa pb sa sb : ℚ) : Bool :=
  decide (pa < pb) || (decide (pa = pb) && decide (sa ≤ sb))

/-- Northbound: latitude ascending, longitude ascending. -/
abbrev relNB (a b : RouteRow) : Prop := routeLe a.lat b.lat a.lon b.lon = true

/-- Southbound: latitude descending, longitude ascending. -/
abbrev relSB (a b : RouteRow) : Prop := routeLe b.lat a.lat a.lon b.lon = true

/-- Eastbound: longitude ascending, latitude ascending. -/
abbrev relEB (a b : RouteRow) : Prop := routeLe a.lon b.lon a.lat b.lat = true

/-- Westbound: longitude descending, latitude ascending. -/
abbrev relWB (a b : RouteRow) : Prop := routeLe b.lon a.lon a.lat b.lat = true

/-- The accepted direction strings (lines 140-147), compared after
`direction.lower()`. -/
def acceptedDirections : List String :=
  ["nb", "northbound", "sb", "southbound", "eb", "eastbound", "wb", "westbound"]

/-- The sort performed for an accepted direction (line 153); an unknown
direction leaves the frame untouched (that branch raises instead). -/
def dirSort (direction : String) (train : List RouteRow) : List RouteRow :=
  match direction.toLower with
  | "nb" | "northbound" => List.insertionSort relNB train
  | "sb" | "southbound" => List.insertionSort relSB train
  | "eb" | "eastbound" => List.insertionSort relEB train
  | "wb" | "westbound" => List.insertionSort relWB train
  | _ => train

/-- The ordering relation the sorted route satisfies for each direction. -/
def dirRel (direction : String) : RouteRow → RouteRow → Prop :=
  match direction.toLower with
  | "nb" | "northbound" => relNB
  | "sb" | "southbound" => relSB
  | "eb" | "eastbound" => relEB
  | "wb" | "westbound" => relWB
  | _ => fun _ _ => True

/-- The direction dispatch of `create_route` (lines 139-153). -/
def create_route_by_direction (train : List RouteRow) (direction : String) :
    Except PyErr (List RouteRow) :=
  match direction.toLower with
  | "nb" | "northbound" => Except.ok (List.insertionSort relNB train)
  | "sb" | "southbound" => Except.ok (List.insertionSort relSB train)
  | "eb" | "eastbound" => Except.ok (List.insertionSort relEB train)
  | "wb" | "westbound" => Except.ok (List.insertionSort relWB train)
  | _ => Except.error (.valueError
      "Direction invalid: choose eastbound, westbound, northbound, or southbound")

/-- The function `create_route(train, direction, station_order)` (amtk_network.py lines
114-153).  A truthy (non-empty) station_order dictionary sorts by the mapped
station codes instead (that branch sorts the caller frame in place); otherwise
the direction dispatch runs. -/
def create_route (train : List RouteRow) (direction : String)
    (station_order : Option (List (String × ℤ))) : Except PyErr (List RouteRow) :=
  match station_order with
  | some ord =>
    if ord ≠ [] then
      Except.ok (List.insertionSort (fun a b => ordLe ord a b = true) train)
    else create_route_by_direction train direction
  | Option.none => create_route_by_direction train direction

/-!
## amtk_frame.describe_numeric_column (amtk_frame.py lines 146-208)

A pandas Series is a name, a dtype (modelled by the boolean
`np.issubdtype(dtype, np.number)` test the function performs) and cells that
may be missing.  Statistics that pandas reports as NaN on degenerate input
(empty column, too few points) are `Option.none`; `std` and `skewness` are
omitted from the embedded dictionary because they are square-root valued and
have no rational value (no claim depends on them).
-/

/-- A pandas Series passed to `describe_numeric_column`. -/
structure PSeries where
  name : String
  numericDtype : Bool
  values : List (Option ℚ)
  deriving DecidableEq, Repr

/-- The non-null cells, in order (pandas skipna). -/
def nonNullQ (values : List (Option ℚ)) : List ℚ := values.filterMap id

/-- pandas `column.isnull().any()`. -/
def hasMissing (values : List (Option ℚ)) : Bool := values.any (fun v => v.isNone)

/-- pandas `mode()[0]`: the smallest value of maximal frequency among the
non-null cells (`mode()` sorts ascending), None when there are none. -/
def modeQ (l : List ℚ) : Option ℚ :=
  l.foldl (fun acc v =>
    match acc with
    | Option.none => some v
    | some b =>
      if (l.filter (fun x => x == v)).length > (l.filter (fun x => x == b)).length
          ∨ ((l.filter (fun x => x == v)).length = (l.filter (fun x => x == b)).length
              ∧ v < b)
      then some v else some b) Option.none

/-- The dictionary built on amtk_frame.py lines 169-199. -/
structure DescStats where
  non_null : ℕ
  missing : ℕ
  mean : Option ℚ
  median : Option ℚ
  mode : Option ℚ
  vmin : Option ℚ
  q25 : Option ℚ
  q50 : Option ℚ
  q75 : Option ℚ
  vmax : Option ℚ
  variance : Option ℚ
  vrange : Option ℚ
  iqr : Option ℚ
  kurtosis : Option ℚ
  deriving DecidableEq, Repr

/-- The statistics of the dictionary: counts of lines 173-174, center of
177-181, position of 182-188, spread of 189-194 and the kurtosis shape
measure of line 197 (pandas bias-corrected kurt; NaN below four points, 0 on
zero dispersion).  `stats.iqr` (scipy) does not skip NaN, so any missing value
makes it NaN, unlike the quantiles. -/
def descStatsOf (values : List (Option ℚ)) : DescStats :=
  let vals := nonNullQ values
  let n := vals.length
  let m2 := sumQ (vals.map (fun x => (x - sumQ vals / (n : ℚ)) ^ 2))
  let m4 := sumQ (vals.map (fun x => (x - sumQ vals / (n : ℚ)) ^ 4))
  { non_null := n
    missing := (values.filter (fun v => v.isNone)).length
    mean := if n = 0 then Option.none else some (sumQ vals / (n : ℚ))
    median := if n = 0 then Option.none else some (quantile vals (1/2))
    mode := modeQ vals
    vmin := if n = 0 then Option.none else some (listMinQ vals)
    q25 := if n = 0 then Option.none else some (quantile vals (1/4))
    q50 := if n = 0 then Option.none else some (quantile vals (1/2))
    q75 := if n = 0 then Option.none else some (quantile vals (3/4))
    vmax := if n = 0 then Option.none else some (listMaxQ vals)
    variance := if n ≤ 1 then Option.none else some (m2 / ((n : ℚ) - 1))
    vrange := if n = 0 then Option.none else some (listMaxQ vals - listMinQ vals)
    iqr := if hasMissing values ∨ n = 0 then Option.none
      else some (quantile vals (3/4) - quantile vals (1/4))
    kurtosis := if n < 4 then Option.none
      else if m2 = 0 then some 0
      else some ((n : ℚ) * (n + 1) * (n - 1) * m4 / ((n - 2) * (n - 3) * m2 ^ 2)
        - 3 * ((n : ℚ) - 1) ^ 2 / (((n : ℚ) - 2) * ((n : ℚ) - 3))) }

/-- The function `describe_numeric_column(column)` (amtk_frame.py lines 146-208): first
component the UserWarning messages issued, second the returned dictionary
(None for a non-numeric column). -/
def describe_numeric_column (column : PSeries) : List String × Option DescStats :=
  if column.numericDtype then
    ((if hasMissing column.values then
        ["Column contains missing values. Interquartile range (IQR) will not be computed."]
      else []),
     some (descStatsOf column.values))
  else (["Provided column is not numeric."], Option.none)

/-!
## amtk_detrain (amtk_detrain.py)

A frame of this module is an association list of column names to numeric
column values.
-/

/-- A DataFrame of the detrain module, column-oriented. -/
abbrev DetFrame := List (String × List ℚ)

/-- The function `get_late_to_total_detrain_ratio(frame, precision)` (amtk_detrain.py
lines 107-121): the elementwise quotient of the two detraining-customer sum
columns, rounded; a missing column is a pandas KeyError, i.e. `none`. -/
def get_late_to_total_detrain_ratio (frame : DetFrame) (precision : ℕ) :
    Option (List ℚ) :=
  match List.lookup "Late Detraining Customers sum" frame,
        List.lookup "Total Detraining Customers sum" frame with
  | some late, some total =>
    some ((List.zipWith (fun l t => l / t) late total).map
      (fun x => roundTo x precision))
  | _, _ => Option.none

/-- Sample frame for the C8 witness. -/
def wDetrainRatio : DetFrame :=
  [("Late Detraining Customers sum", [1]), ("Total Detraining Customers sum", [4])]

/-!
## amtk_detrain.get_sum_stats (amtk_detrain.py lines 230-277)

`get_sum_stats` delegates to `compute_sum_stats` and `get_mean_min_late`,
both of which are unimplemented stubs (`pass  # TODO Implement me :)`), so
those two are modelled from the spec (their docstrings); everything else
below is translated from the implemented body of `get_sum_stats`.
-/

/-- The named aggregation functions DataFrame.agg accepts here; an unknown
name (a pandas error) or an aggregate that pandas reports as NaN on an empty
column is `none`. -/
def applyAgg : String → List ℚ → Option ℚ
  | "sum", l => some (sumQ l)
  | "mean", l => if l.isEmpty then Option.none else some (sumQ l / (l.length : ℚ))
  | "min", l => if l.isEmpty then Option.none else some (listMinQ l)
  | "max", l => if l.isEmpty then Option.none else some (listMaxQ l)
  | "count", l => some ((l.length : ℚ))
  | "median", l => if l.isEmpty then Option.none else some (quantile l (1/2))
  | _, _ => Option.none

/-- All-or-nothing sequencing of a list of optional values. -/
def seqOption {α : Type} : List (Option α) → Option (List α)
  | [] => some []
  | Option.none :: _ => Option.none
  | some a :: t => (seqOption t).map (fun r => a :: r)

/-- Modelled from the spec: `compute_sum_stats` (amtk_detrain.py lines 16-39)
is an unimplemented stub; per its docstring it builds the dictionary
`{col: agg_funcs for col in frame.columns if col in agg_columns}`, passes it
to `DataFrame.agg`, and rounds to `precision` decimal places.  The result is
the flattened (column, function) ↦ value table. -/
def compute_sum_stats (frame : DetFrame) (agg_columns agg_funcs : List String)
    (precision : ℕ) : Option (List ((String × String) × ℚ)) :=
  seqOption ((frame.filter (fun cv => decide (cv.1 ∈ agg_columns))).flatMap
    (fun cv => agg_funcs.map (fun f =>
      (applyAgg f cv.2).map (fun x => ((cv.1, f), roundTo x precision)))))

/-- Modelled from the spec: `get_mean_min_late` (amtk_detrain.py lines
124-136) is an unimplemented stub; per its docstring it computes the mean
late arrival time (minutes) for late detraining passengers, rounded to
`precision` decimal places. -/
def get_mean_min_late (frame : DetFrame) (precision : ℕ) : Option ℚ :=
  match List.lookup "Late Detraining Customers Avg Min Late" frame with
  | some l =>
    if l.isEmpty then Option.none
    else some (roundTo (sumQ l / (l.length : ℚ)) precision)
  | Option.none => Option.none

/-- pandas `frame.shape[0]`. -/
def nrows (frame : DetFrame) : ℕ := (frame.head?.map (fun cv => cv.2.length)).getD 0

/-- The function `get_sum_stats(frame, agg_columns, agg_funcs, precision)` (amtk_detrain.py
lines 230-277): summarize via `compute_sum_stats`, flatten the column names to
"col func", prepend the Train Arrivals row count, then add the late-to-total
ratio (read off the flattened stats row, line 262), the mean late arrival
time, and the on-time detraining total.  The `precision` parameter is unused
by the source: every helper is called with its default 4. -/
def get_sum_stats (frame : DetFrame) (agg_columns agg_funcs : List String)
    (precision : ℕ) : Option (List (String × ℚ)) :=
  match compute_sum_stats frame agg_columns agg_funcs 4 with
  | Option.none => Option.none
  | some stats =>
    let flat := ("Train Arrivals", (nrows frame : ℚ))
      :: stats.map (fun p => (p.1.1 ++ " " ++ p.1.2, p.2))
    match get_late_to_total_detrain_ratio (flat.map (fun p => (p.1, [p.2]))) 4 with
    | Option.none => Option.none
    | some ratioList =>
      match ratioList.head? with
      | Option.none => Option.none
      | some ratio =>
        match get_mean_min_late frame 4 with
        | Option.none => Option.none
        | some mml =>
          match List.lookup "Late Detraining Customers sum" flat,
                List.lookup "Total Detraining Customers sum" flat with
          | some late, some total =>
            some (flat ++ [("Late to Total Detraining Customers Ratio", ratio),
              ("Late Detraining Customers Avg Min Late mean", mml),
              ("Total On Time Detraining Customers sum", total - late)])
          | _, _ => Option.none

/-- Sample frame with the fixed detraining schema. -/
def cexDetrain : DetFrame :=
  [("Late Detraining Customers", [1, 2]),
   ("Total Detraining Customers", [5, 5]),
   ("Late Detraining Customers Avg Min Late", [10, 20])]

/-! ### Lemmas about `keys`, `groupVals` and membership in `aggregate_data` -/

theorem mem_keys {rows : List Row} {g : ℕ} :
    g ∈ keys rows ↔ ∃ r, r ∈ rows ∧ r.grp = g := by
  unfold keys
  rw [(List.perm_insertionSort _ _).mem_iff, List.mem_dedup, List.mem_map]

theorem nodup_keys (rows : List Row) : (keys rows).Nodup :=
  ((List.perm_insertionSort _ _).nodup_iff).mpr (List.nodup_dedup _)

theorem sorted_keys (rows : List Row) : List.Sorted (· ≤ ·) (keys rows) :=
  List.sorted_insertionSort _ _

/-- If every group key survives the row filter `p`, the groupby of the
filtered frame has exactly the original group keys. -/
theorem keys_filter_eq {rows : List Row} {p : Row → Bool}
    (h : ∀ g ∈ keys rows, ∃ r, r ∈ rows ∧ r.grp = g ∧ p r = true) :
    keys (rows.filter p) = keys rows := by
  apply List.eq_of_perm_of_sorted _ (sorted_keys _) (sorted_keys _)
  apply (List.perm_ext_iff_of_nodup (nodup_keys _) (nodup_keys _)).2
  intro g
  rw [mem_keys, mem_keys]
  constructor
  · rintro ⟨r, hr, rfl⟩
    exact ⟨r, (List.mem_filter.1 hr).1, rfl⟩
  · rintro ⟨r, hr, rfl⟩
    obtain ⟨r2, hr2, hg2, hp2⟩ := h _ (mem_keys.2 ⟨r, hr, rfl⟩)
    exact ⟨r2, List.mem_filter.2 ⟨hr2, hp2⟩, hg2⟩

/-- Filtering the rows by a predicate on the value of each row relative to its
own group, then selecting one group, is the same as filtering the values of that group. -/
theorem groupVals_filter_eq (rows : List Row) (q : ℕ → ℚ → Bool) (g : ℕ) :
    groupVals (rows.filter (fun r => q r.grp r.val)) g =
      (groupVals rows g).filter (fun v => q g v) := by
  unfold groupVals
  rw [List.filter_map]
  congr 1
  rw [List.filter_filter, List.filter_filter]
  apply List.filter_congr
  intro r _
  by_cases hg : r.grp = g
  · subst hg; simp [Function.comp]
  · have hb : (r.grp == g) = false := beq_eq_false_iff_ne.mpr hg
    simp [hb, Function.comp]

theorem exists_of_mem_aggregate_data {rows : List Row} {k : ℚ} {r : AggRow}
    (h : r ∈ aggregate_data rows k) :
    ∃ i, i < (keys rows).length ∧ ∃ c, c ∈ colorsOf rows ((keys rows).getD i 0) ∧
      r = aggRow rows k ((keys rows).getD i 0)
        ((lowerCol rows k).getD i Option.none)
        ((upperCol rows k).getD i Option.none) c := by
  unfold aggregate_data at h
  rw [List.mem_flatMap] at h
  obtain ⟨i, hi, hr⟩ := h
  rw [List.mem_range] at hi
  rw [List.mem_map] at hr
  obtain ⟨c, hc, rfl⟩ := hr
  exact ⟨i, hi, c, hc, rfl⟩

/-- Claim C1: for every input frame, value column and whisker constant k,
`aggregate_data` computes for each group of the first column the interquartile
range `iqr = Q3 - Q1` (75% quantile minus 25% quantile of the group values)
and the whisker boundaries `min_ = Q1 - k*iqr` and `max_ = Q3 + k*iqr`. -/
theorem aggregate_data_iqr_whiskers (rows : List Row) (k : ℚ) :
    ∀ r ∈ aggregate_data rows k,
      r.iqr = quantile (groupVals rows r.grp) (3/4)
                - quantile (groupVals rows r.grp) (1/4) ∧
      r.min_ = quantile (groupVals rows r.grp) (1/4) - k * r.iqr ∧
      r.max_ = quantile (groupVals rows r.grp) (3/4) + k * r.iqr := by
  intro r hr
  obtain ⟨i, hi, c, hc, rfl⟩ := exists_of_mem_aggregate_data hr
  refine ⟨rfl, rfl, rfl⟩

theorem aggregate_data_wRows_eq : aggregate_data wRows (3/2) = [wAgg0, wAgg1] := rfl

theorem mem_wAgg0 : wAgg0 ∈ aggregate_data wRows (3/2) := by
  rw [aggregate_data_wRows_eq]
  exact List.mem_cons_self _ _

/-- Witness for C1 at a concrete frame. -/
theorem aggregate_data_iqr_whiskers_witness :
    wAgg0.iqr = quantile (groupVals wRows wAgg0.grp) (3/4)
        - quantile (groupVals wRows wAgg0.grp) (1/4) ∧
      wAgg0.min_ = quantile (groupVals wRows wAgg0.grp) (1/4) - (3/2) * wAgg0.iqr ∧
      wAgg0.max_ = quantile (groupVals wRows wAgg0.grp) (3/4) + (3/2) * wAgg0.iqr :=
  aggregate_data_iqr_whiskers wRows (3/2) wAgg0 mem_wAgg0

/-- Counterexample to claim C2 as stated: at `cexRows` with k = -2 the group-1
row reports `lower = none` although the minimum group-1 value that is at least
its `min_ = 0` exists and is 0 (and the group-0 row reports `lower = some 0`,
a value of the other group, although no group-0 value is at least its
`min_ = 25/2`). -/
theorem aggregate_data_lower_misaligned :
    ((aggregate_data cexRows (-2)).map (fun r => (r.grp, r.min_, r.lower))) =
        [(0, 25/2, some 0), (1, 0, Option.none)] ∧
      ((groupVals cexRows 1).filter (fun v => decide ((0:ℚ) ≤ v))).min? = some 0 ∧
      ((groupVals cexRows 0).filter (fun v => decide ((25/2:ℚ) ≤ v))) = [] := by
  have hg0 : groupVals cexRows 0 = [0, 10] := rfl
  have hg1 : groupVals cexRows 1 = [0, 0] := rfl
  have hq10 : quantile [(0:ℚ), 10] (1/4) = 5/2 := by
    norm_num [quantile, List.insertionSort, List.orderedInsert]
  have hq30 : quantile [(0:ℚ), 10] (3/4) = 15/2 := by
    norm_num [quantile, List.insertionSort, List.orderedInsert]
  have hq11 : quantile [(0:ℚ), 0] (1/4) = 0 := by
    norm_num [quantile, List.insertionSort, List.orderedInsert]
  have hq31 : quantile [(0:ℚ), 0] (3/4) = 0 := by
    norm_num [quantile, List.insertionSort, List.orderedInsert]
  have hw0 : whiskerMin cexRows (-2) 0 = 25/2 := by
    rw [whiskerMin, hg0, hq10, hq30]; norm_num
  have hw1 : whiskerMin cexRows (-2) 1 = 0 := by
    rw [whiskerMin, hg1, hq11, hq31]; norm_num
  have hCex : cexRows = [⟨0, 0, 0⟩, ⟨0, 10, 0⟩, ⟨1, 0, 0⟩, ⟨1, 0, 0⟩] := rfl
  rw [hCex] at hw0 hw1 hg0 hg1 ⊢
  have e1 : decide
      (whiskerMin [⟨0, 0, 0⟩, ⟨0, 10, 0⟩, ⟨1, 0, 0⟩, ⟨1, 0, 0⟩] (-2) (0:ℕ) ≤ (0:ℚ)) = false := by
    rw [hw0]; norm_num
  have e2 : decide
      (whiskerMin [⟨0, 0, 0⟩, ⟨0, 10, 0⟩, ⟨1, 0, 0⟩, ⟨1, 0, 0⟩] (-2) (0:ℕ) ≤ (10:ℚ)) = false := by
    rw [hw0]; norm_num
  have e3 : decide
      (whiskerMin [⟨0, 0, 0⟩, ⟨0, 10, 0⟩, ⟨1, 0, 0⟩, ⟨1, 0, 0⟩] (-2) (1:ℕ) ≤ (0:ℚ)) = true := by
    rw [hw1]; norm_num
  have hlr : lowerRows [⟨0, 0, 0⟩, ⟨0, 10, 0⟩, ⟨1, 0, 0⟩, ⟨1, 0, 0⟩] (-2)
      = [⟨1, 0, 0⟩, ⟨1, 0, 0⟩] := by
    rw [lowerRows]
    simp only [List.filter_cons, List.filter_nil, e1, e2, e3]
    simp
  have hlc : lowerCol [⟨0, 0, 0⟩, ⟨0, 10, 0⟩, ⟨1, 0, 0⟩, ⟨1, 0, 0⟩] (-2) = [some 0] := by
    rw [lowerCol, hlr]
    rfl
  refine ⟨?_, ?_, ?_⟩
  · rw [show aggregate_data [⟨0, 0, 0⟩, ⟨0, 10, 0⟩, ⟨1, 0, 0⟩, ⟨1, 0, 0⟩] (-2) =
        [aggRow [⟨0, 0, 0⟩, ⟨0, 10, 0⟩, ⟨1, 0, 0⟩, ⟨1, 0, 0⟩] (-2) 0
          ((lowerCol [⟨0, 0, 0⟩, ⟨0, 10, 0⟩, ⟨1, 0, 0⟩, ⟨1, 0, 0⟩] (-2)).getD 0 Option.none)
          ((upperCol [⟨0, 0, 0⟩, ⟨0, 10, 0⟩, ⟨1, 0, 0⟩, ⟨1, 0, 0⟩] (-2)).getD 0 Option.none) 0,
         aggRow [⟨0, 0, 0⟩, ⟨0, 10, 0⟩, ⟨1, 0, 0⟩, ⟨1, 0, 0⟩] (-2) 1
          ((lowerCol [⟨0, 0, 0⟩, ⟨0, 10, 0⟩, ⟨1, 0, 0⟩, ⟨1, 0, 0⟩] (-2)).getD 1 Option.none)
          ((upperCol [⟨0, 0, 0⟩, ⟨0, 10, 0⟩, ⟨1, 0, 0⟩, ⟨1, 0, 0⟩] (-2)).getD 1 Option.none) 0]
        from rfl]
    simp only [List.map_cons, List.map_nil, aggRow, hlc]
    rw [hw0, hw1]
    rfl
  · rw [hg1]
    rfl
  · rw [hg0]
    norm_num [List.filter_cons]

/-- Claim C2 (amended): provided every group has at least one value at least
its `min_` and one at most its `max_` (always true for k ≥ 0), each output row
lists as outliers exactly the group values strictly below `min_` or strictly
above `max_` (in row order), and reports as lower/upper whisker the minimum
group value ≥ `min_` and the maximum group value ≤ `max_`. -/
theorem aggregate_data_whiskers_outliers (rows : List Row) (k : ℚ)
    (H : ∀ g ∈ keys rows,
      ((groupVals rows g).any (fun v => decide (whiskerMin rows k g ≤ v)) = true) ∧
      ((groupVals rows g).any (fun v => decide (v ≤ whiskerMax rows k g)) = true)) :
    ∀ r ∈ aggregate_data rows k,
      r.outliers = (groupVals rows r.grp).filter
        (fun v => decide (v < r.min_) || decide (r.max_ < v)) ∧
      r.lower = ((groupVals rows r.grp).filter (fun v => decide (r.min_ ≤ v))).min? ∧
      r.upper = ((groupVals rows r.grp).filter (fun v => decide (v ≤ r.max_))).max? := by
  intro r hr
  obtain ⟨i, hi, c, hc, rfl⟩ := exists_of_mem_aggregate_data hr
  refine ⟨rfl, ?_, ?_⟩
  · -- lower
    have hkeys : keys (lowerRows rows k) = keys rows := by
      apply keys_filter_eq
      intro g hg
      obtain ⟨v, hv, hvp⟩ := List.any_eq_true.1 (H g hg).1
      obtain ⟨r0, hr0, rfl⟩ := List.mem_map.1 hv
      have hgrp : r0.grp = g := by
        simpa using (List.mem_filter.1 hr0).2
      refine ⟨r0, (List.mem_filter.1 hr0).1, hgrp, ?_⟩
      rw [hgrp]
      exact hvp
    show (lowerCol rows k).getD i Option.none = _
    have h1 : (lowerCol rows k).getD i Option.none
        = (groupVals (lowerRows rows k) ((keys rows).getD i 0)).min? := by
      unfold lowerCol
      rw [hkeys]
      simp [List.getElem?_eq_getElem hi]
    rw [h1]
    exact congrArg List.min?
      (groupVals_filter_eq rows (fun g v => decide (whiskerMin rows k g ≤ v))
        ((keys rows).getD i 0))
  · -- upper
    have hkeys : keys (upperRows rows k) = keys rows := by
      apply keys_filter_eq
      intro g hg
      obtain ⟨v, hv, hvp⟩ := List.any_eq_true.1 (H g hg).2
      obtain ⟨r0, hr0, rfl⟩ := List.mem_map.1 hv
      have hgrp : r0.grp = g := by
        simpa using (List.mem_filter.1 hr0).2
      refine ⟨r0, (List.mem_filter.1 hr0).1, hgrp, ?_⟩
      rw [hgrp]
      exact hvp
    show (upperCol rows k).getD i Option.none = _
    have h1 : (upperCol rows k).getD i Option.none
        = (groupVals (upperRows rows k) ((keys rows).getD i 0)).max? := by
      unfold upperCol
      rw [hkeys]
      simp [List.getElem?_eq_getElem hi]
    rw [h1]
    exact congrArg List.max?
      (groupVals_filter_eq rows (fun g v => decide (v ≤ whiskerMax rows k g))
        ((keys rows).getD i 0))

/-- Witness for the amended C2 at a concrete frame (k = 3/2). -/
theorem aggregate_data_whiskers_outliers_witness :
    wAgg0.outliers = (groupVals wRows wAgg0.grp).filter
        (fun v => decide (v < wAgg0.min_) || decide (wAgg0.max_ < v)) ∧
      wAgg0.lower = ((groupVals wRows wAgg0.grp).filter
        (fun v => decide (wAgg0.min_ ≤ v))).min? ∧
      wAgg0.upper = ((groupVals wRows wAgg0.grp).filter
        (fun v => decide (v ≤ wAgg0.max_))).max? := by
  have hg0 : groupVals wRows 0 = [1, 3] := rfl
  have hg1 : groupVals wRows 1 = [5] := rfl
  have hq25 : quantile [(1:ℚ), 3] (1/4) = 3/2 := by
    norm_num [quantile, List.insertionSort, List.orderedInsert]
  have hq75 : quantile [(1:ℚ), 3] (3/4) = 5/2 := by
    norm_num [quantile, List.insertionSort, List.orderedInsert]
  have hq5 : ∀ q : ℚ, quantile [(5:ℚ)] q = 5 := by
    intro q
    norm_num [quantile, List.insertionSort, List.orderedInsert]
  have hwm0 : whiskerMin wRows (3/2) 0 = 0 := by
    rw [whiskerMin, hg0, hq25, hq75]; norm_num
  have hwM0 : whiskerMax wRows (3/2) 0 = 4 := by
    rw [whiskerMax, hg0, hq25, hq75]; norm_num
  have hwm1 : whiskerMin wRows (3/2) 1 = 5 := by
    rw [whiskerMin, hg1, hq5, hq5]; norm_num
  have hwM1 : whiskerMax wRows (3/2) 1 = 5 := by
    rw [whiskerMax, hg1, hq5, hq5]; norm_num
  refine aggregate_data_whiskers_outliers wRows (3/2) ?_ wAgg0 mem_wAgg0
  intro g hg
  have hcase : g = 0 ∨ g = 1 := by
    rw [show keys wRows = [0, 1] from rfl] at hg
    simpa using hg
  rcases hcase with rfl | rfl
  · rw [hg0]
    refine ⟨?_, ?_⟩ <;> norm_num [List.any_cons, hwm0, hwM0]
  · rw [hg1]
    refine ⟨?_, ?_⟩ <;> norm_num [List.any_cons, hwm1, hwM1]

/-- Counterexample to claim C6 as stated: `create_bins` does not leave its
input frame unchanged (it adds the "bin" column in place), and
`add_stations_to_route` does not leave the stations frame unchanged (it writes
the "Train Number" column in place). -/
theorem wrangling_mutates_inputs :
    (create_bins ⟨[1], Option.none⟩ 2).1 ≠ (⟨[1], Option.none⟩ : BinFrame) ∧
    (add_stations_to_route [⟨"B", some 7, 1, 1⟩] [⟨"A", Option.none, 0, 0⟩] []).2
      ≠ [(⟨"A", Option.none, 0, 0⟩ : RouteRow)] := by
  constructor
  · intro h
    exact Option.some_ne_none _ (congrArg BinFrame.bin h)
  · intro h
    have := congrArg (fun l => (l.headD ⟨"", Option.none, 0, 0⟩).trainNumber) h
    simp [add_stations_to_route] at this

/-- Claim C6 (amended): the cited wrangling functions mutate their inputs in a
specific way: `create_bins` leaves the data column unchanged but writes the
computed bin column into the input frame, and `add_stations_to_route`
overwrites the "Train Number" column of the stations frame with the train
number of the route (all other columns unchanged); the derived outputs share
these mutated objects. -/
theorem wrangling_effect_on_inputs (F : BinFrame) (w : ℚ)
    (train stations : List RouteRow) (ord : List (String × ℤ)) :
    (create_bins F w).1.data = F.data ∧
    (create_bins F w).1.bin = some (binColumn F.data w) ∧
    (add_stations_to_route train stations ord).2 = stations.map
      (fun r => { r with trainNumber := train.head?.bind RouteRow.trainNumber }) :=
  ⟨rfl, rfl, rfl⟩

/-! ### Lemmas for `create_bins` -/

theorem foldl_min_le_init (t : List ℚ) (a : ℚ) : t.foldl min a ≤ a := by
  induction t generalizing a with
  | nil => simp
  | cons b t ih => exact le_trans (ih (min a b)) (min_le_left _ _)

theorem foldl_min_le_of_mem {t : List ℚ} {x : ℚ} (a : ℚ) (hx : x ∈ t) :
    t.foldl min a ≤ x := by
  induction t generalizing a with
  | nil => cases hx
  | cons b t ih =>
    rcases List.mem_cons.1 hx with rfl | hx2
    · exact le_trans (foldl_min_le_init t (min a x)) (min_le_right _ _)
    · exact ih (min a b) hx2

theorem listMinQ_le {l : List ℚ} {v : ℚ} (hv : v ∈ l) : listMinQ l ≤ v := by
  cases l with
  | nil => cases hv
  | cons a t =>
    rcases List.mem_cons.1 hv with rfl | hv2
    · exact foldl_min_le_init t v
    · exact foldl_min_le_of_mem a hv2

theorem init_le_foldl_max (t : List ℚ) (a : ℚ) : a ≤ t.foldl max a := by
  induction t generalizing a with
  | nil => simp
  | cons b t ih => exact le_trans (le_max_left _ _) (ih (max a b))

theorem le_foldl_max_of_mem {t : List ℚ} {x : ℚ} (a : ℚ) (hx : x ∈ t) :
    x ≤ t.foldl max a := by
  induction t generalizing a with
  | nil => cases hx
  | cons b t ih =>
    rcases List.mem_cons.1 hx with rfl | hx2
    · exact le_trans (le_max_right _ _) (init_le_foldl_max t (max a x))
    · exact ih (max a b) hx2

theorem le_listMaxQ {l : List ℚ} {v : ℚ} (hv : v ∈ l) : v ≤ listMaxQ l := by
  cases l with
  | nil => cases hv
  | cons a t =>
    rcases List.mem_cons.1 hv with rfl | hv2
    · exact init_le_foldl_max t v
    · exact le_foldl_max_of_mem a hv2

theorem getD_mem_of_lt {α : Type} {l : List α} {j : ℕ} (d : α) (h : j < l.length) :
    l.getD j d ∈ l := by
  rw [List.getD_eq_getElem?_getD, List.getElem?_eq_getElem h]
  exact List.getElem_mem h

/-- On a strictly ascending list, the first `digitize v l` entries are ≤ v and
all later entries are > v. -/
theorem digitize_spec (l : List ℚ) (hl : l.Pairwise (· < ·)) (v : ℚ) :
    (∀ j, j < digitize v l → l.getD j 0 ≤ v) ∧
    (∀ j, digitize v l ≤ j → j < l.length → v < l.getD j 0) := by
  induction l with
  | nil =>
    exact ⟨fun j hj => absurd hj (by simp [digitize]), fun j h1 h2 => absurd h2 (by simp)⟩
  | cons a t ih =>
    rcases List.pairwise_cons.1 hl with ⟨hat, ht⟩
    obtain ⟨ih1, ih2⟩ := ih ht
    by_cases hav : a ≤ v
    · have hdg : digitize v (a :: t) = digitize v t + 1 := by
        simp [digitize, List.filter_cons, hav]
      constructor
      · intro j hj
        cases j with
        | zero => simpa using hav
        | succ j2 =>
          rw [hdg] at hj
          exact ih1 j2 (by omega)
      · intro j h1 h2
        cases j with
        | zero => rw [hdg] at h1; omega
        | succ j2 =>
          rw [hdg] at h1
          simp only [List.length_cons, Nat.succ_lt_succ_iff] at h2
          exact ih2 j2 (by omega) h2
    · have hva : v < a := not_le.1 hav
      have hdg : digitize v (a :: t) = 0 := by
        simp only [digitize, List.filter_cons]
        have : (t.filter (fun b => decide (b ≤ v))) = [] := by
          rw [List.filter_eq_nil_iff]
          intro b hb
          simp only [decide_eq_true_eq]
          exact not_le.2 (lt_trans hva (hat b hb))
        simp [hav, this]
      constructor
      · intro j hj
        rw [hdg] at hj
        omega
      · intro j _ h2
        cases j with
        | zero => simpa using hva
        | succ j2 =>
          have hj2 : j2 < t.length := by simpa using h2
          have hmem : t.getD j2 0 ∈ t := getD_mem_of_lt 0 hj2
          simpa using lt_trans hva (hat _ hmem)

theorem digitize_le_length (v : ℚ) (l : List ℚ) : digitize v l ≤ l.length :=
  List.length_filter_le _ _

theorem length_arange (start stop step : ℚ) :
    (arange start stop step).length = ⌈(stop - start) / step⌉.toNat := by
  simp [arange]

theorem getD_arange {start stop step : ℚ} {j : ℕ}
    (h : j < (arange start stop step).length) :
    (arange start stop step).getD j 0 = start + (j : ℚ) * step := by
  rw [length_arange] at h
  rw [arange, List.getD_eq_getElem?_getD, List.getElem?_map, List.getElem?_range h]
  rfl

theorem pairwise_arange {start stop step : ℚ} (hs : 0 < step) :
    (arange start stop step).Pairwise (· < ·) := by
  rw [arange, List.pairwise_map]
  refine (List.pairwise_lt_range _).imp ?_
  intro a b hab
  have hab' : (a : ℚ) < b := by exact_mod_cast hab
  have := mul_lt_mul_of_pos_right hab' hs
  linarith

theorem pairwise_lt_getD {l : List ℚ} (h : l.Pairwise (· < ·)) {i j : ℕ}
    (hij : i < j) (hj : j < l.length) : l.getD i 0 < l.getD j 0 := by
  rw [List.getD_eq_getElem?_getD, List.getD_eq_getElem?_getD,
    List.getElem?_eq_getElem (lt_trans hij hj), List.getElem?_eq_getElem hj]
  exact List.pairwise_iff_get.1 h ⟨i, lt_trans hij hj⟩ ⟨j, hj⟩ hij

/-- Counterexample to claim C7 as stated: on the frame whose numeric column is
the single value 4 with bin_width 2, `create_bins` reports `num_bins = 0` and
assigns the row the bin index -1, which is not in the range [0, num_bins - 1]
(the max-edge fix-up line 140 sets `len(bins) - 2 = -1` when the edge list is
a single edge). -/
theorem create_bins_constant_column_cex :
    (create_bins ⟨[4], Option.none⟩ 2).2.2.1 = 0 ∧
    (create_bins ⟨[4], Option.none⟩ 2).1.bin = some [-1] ∧
    ¬ (0 : ℤ) ≤ -1 := by
  have hedges : binEdges [(4:ℚ)] 2 = [4] := by
    have h1 : listMinQ [(4:ℚ)] = 4 := rfl
    have h2 : listMaxQ [(4:ℚ)] = 4 := rfl
    rw [binEdges, h1, h2]
    norm_num [arange]
    simp only [show List.range 1 = [0] from rfl]
    norm_num
  have hcol : binColumn [(4:ℚ)] 2 = [-1] := by
    rw [binColumn, hedges]
    norm_num
  refine ⟨?_, ?_, by norm_num⟩
  · show (binEdges [(4:ℚ)] 2).length - 1 = 0
    rw [hedges]
    rfl
  · show some (binColumn [(4:ℚ)] 2) = some [-1]
    rw [hcol]

/-- Claim C7 (amended): for every frame with a non-empty numeric column and
positive bin_width, provided the reported `num_bins` is at least 1 (this fails
exactly when the column is constant with value an exact multiple of
bin_width), `create_bins` produces edges spaced `bin_width` apart starting at
`floor(min/bin_width)*bin_width`, reports `num_bins = len(bins) - 1`, and
assigns every row a bin index `b` with `0 ≤ b ≤ num_bins - 1`,
`bins[b] ≤ v ≤ bins[b+1]`, rows carrying the maximum edge value going to the
last bin. -/
theorem create_bins_spec (F : BinFrame) (w : ℚ) (hne : F.data ≠ [])
    (hw : 0 < w) (hnb : 1 ≤ (create_bins F w).2.2.1) :
    (create_bins F w).2.1 = (List.range (binEdges F.data w).length).map
        (fun (j : ℕ) => (⌊listMinQ F.data / w⌋ : ℚ) * w + (j : ℚ) * w) ∧
    (create_bins F w).2.2.1 = (binEdges F.data w).length - 1 ∧
    (create_bins F w).2.2.2 = w ∧
    (create_bins F w).1.bin = some (binColumn F.data w) ∧
    (binColumn F.data w).length = F.data.length ∧
    ∀ i, i < F.data.length →
      0 ≤ (binColumn F.data w).getD i 0 ∧
      (binColumn F.data w).getD i 0 ≤ ((create_bins F w).2.2.1 : ℤ) - 1 ∧
      (binEdges F.data w).getD ((binColumn F.data w).getD i 0).toNat 0
        ≤ F.data.getD i 0 ∧
      F.data.getD i 0
        ≤ (binEdges F.data w).getD (((binColumn F.data w).getD i 0).toNat + 1) 0 ∧
      (F.data.getD i 0
          = (binEdges F.data w).getD ((binEdges F.data w).length - 1) 0 →
        (binColumn F.data w).getD i 0 = ((create_bins F w).2.2.1 : ℤ) - 1) := by
  have hw0 : w ≠ 0 := ne_of_gt hw
  have hmM : listMinQ F.data ≤ listMaxQ F.data := by
    cases hd : F.data with
    | nil => exact absurd hd hne
    | cons a t =>
      exact le_trans (listMinQ_le (List.mem_cons_self _ _))
        (le_listMaxQ (List.mem_cons_self _ _))
  have hQab : (⌊listMinQ F.data / w⌋ : ℚ) ≤ (⌈listMaxQ F.data / w⌉ : ℚ) := by
    have h1 : (⌊listMinQ F.data / w⌋ : ℚ) ≤ listMinQ F.data / w := Int.floor_le _
    have h2 : listMinQ F.data / w ≤ listMaxQ F.data / w :=
      (div_le_div_iff_of_pos_right hw).mpr hmM
    have h3 : listMaxQ F.data / w ≤ (⌈listMaxQ F.data / w⌉ : ℚ) := Int.le_ceil _
    linarith
  have hab : ⌊listMinQ F.data / w⌋ ≤ ⌈listMaxQ F.data / w⌉ := by exact_mod_cast hQab
  have hlen' : (binEdges F.data w).length
      = (⌈listMaxQ F.data / w⌉ - ⌊listMinQ F.data / w⌋ + 1).toNat := by
    rw [binEdges, length_arange]
    congr 1
    have hq : ((⌈listMaxQ F.data / w⌉ : ℚ) * w + w - (⌊listMinQ F.data / w⌋ : ℚ) * w) / w
        = ((⌈listMaxQ F.data / w⌉ - ⌊listMinQ F.data / w⌋ + 1 : ℤ) : ℚ) := by
      push_cast
      field_simp
      ring
    rw [hq, Int.ceil_intCast]
  have hn2 : 2 ≤ (binEdges F.data w).length := by
    have he : (create_bins F w).2.2.1 = (binEdges F.data w).length - 1 := rfl
    rw [he] at hnb
    omega
  have hpos : 0 < (binEdges F.data w).length := by omega
  have hlenZ : ((binEdges F.data w).length : ℤ)
      = ⌈listMaxQ F.data / w⌉ - ⌊listMinQ F.data / w⌋ + 1 := by
    rw [hlen']
    rw [Int.toNat_of_nonneg (by omega)]
  have hgetD : ∀ j, j < (binEdges F.data w).length →
      (binEdges F.data w).getD j 0
        = (⌊listMinQ F.data / w⌋ : ℚ) * w + (j : ℚ) * w := by
    intro j hj
    rw [binEdges] at hj ⊢
    exact getD_arange hj
  have hpair : (binEdges F.data w).Pairwise (· < ·) := by
    rw [binEdges]; exact pairwise_arange hw
  have hlast : (binEdges F.data w).getD ((binEdges F.data w).length - 1) 0
      = (⌈listMaxQ F.data / w⌉ : ℚ) * w := by
    rw [hgetD _ (by omega)]
    have hcast : (((binEdges F.data w).length - 1 : ℕ) : ℚ)
        = ((⌈listMaxQ F.data / w⌉ - ⌊listMinQ F.data / w⌋ : ℤ) : ℚ) := by
      have h1 : (((binEdges F.data w).length - 1 : ℕ) : ℤ)
          = ⌈listMaxQ F.data / w⌉ - ⌊listMinQ F.data / w⌋ := by omega
      exact_mod_cast h1
    rw [hcast]
    push_cast
    ring
  have hfirst_le : (binEdges F.data w).getD 0 0 ≤ listMinQ F.data := by
    rw [hgetD 0 hpos]
    have h1 := Int.floor_le (listMinQ F.data / w)
    rw [le_div_iff₀ hw] at h1
    push_cast
    linarith
  have hlast_ge : listMaxQ F.data ≤ (⌈listMaxQ F.data / w⌉ : ℚ) * w := by
    have h1 := Int.le_ceil (listMaxQ F.data / w)
    rw [div_le_iff₀ hw] at h1
    linarith
  refine ⟨?_, rfl, rfl, rfl, by simp [binColumn], ?_⟩
  · have he : (binEdges F.data w).length
        = ⌈((⌈listMaxQ F.data / w⌉ : ℚ) * w + w - (⌊listMinQ F.data / w⌋ : ℚ) * w) / w⌉.toNat := by
      rw [binEdges, length_arange]
    rw [he]
    rw [show (create_bins F w).2.1 = binEdges F.data w from rfl, binEdges, arange]
  · intro i hi
    have hvmem : F.data.getD i 0 ∈ F.data := getD_mem_of_lt 0 hi
    have hmv : listMinQ F.data ≤ F.data.getD i 0 := listMinQ_le hvmem
    have hvM : F.data.getD i 0 ≤ listMaxQ F.data := le_listMaxQ hvmem
    have hcolD : (binColumn F.data w).getD i 0 =
        (if F.data.getD i 0
            = (binEdges F.data w).getD ((binEdges F.data w).length - 1) 0
         then ((binEdges F.data w).length : ℤ) - 2
         else (digitize (F.data.getD i 0) (binEdges F.data w) : ℤ) - 1) := by
      rw [binColumn, List.getD_eq_getElem?_getD, List.getElem?_map,
        List.getElem?_eq_getElem hi]
      rw [show F.data.getD i 0 = F.data[i] by
        rw [List.getD_eq_getElem?_getD, List.getElem?_eq_getElem hi]; rfl]
      rfl
    obtain ⟨hs1, hs2⟩ := digitize_spec (binEdges F.data w) hpair (F.data.getD i 0)
    have hk1 : 1 ≤ digitize (F.data.getD i 0) (binEdges F.data w) := by
      by_contra hcon
      have h0 : digitize (F.data.getD i 0) (binEdges F.data w) = 0 := by omega
      have := hs2 0 (by omega) hpos
      linarith
    have hkn : digitize (F.data.getD i 0) (binEdges F.data w)
        ≤ (binEdges F.data w).length := digitize_le_length _ _
    have hnbcast : (((create_bins F w).2.2.1 : ℕ) : ℤ)
        = ((binEdges F.data w).length : ℤ) - 1 := by
      have he : (create_bins F w).2.2.1 = (binEdges F.data w).length - 1 := rfl
      rw [he]
      omega
    by_cases hveq : F.data.getD i 0
        = (binEdges F.data w).getD ((binEdges F.data w).length - 1) 0
    · rw [hcolD, if_pos hveq]
      have htn : (((binEdges F.data w).length : ℤ) - 2).toNat
          = (binEdges F.data w).length - 2 := by omega
      refine ⟨by omega, by omega, ?_, ?_, fun _ => by omega⟩
      · rw [htn]
        have hlt := pairwise_lt_getD hpair
          (show (binEdges F.data w).length - 2 < (binEdges F.data w).length - 1 by omega)
          (show (binEdges F.data w).length - 1 < (binEdges F.data w).length by omega)
        rw [← hveq] at hlt
        exact le_of_lt hlt
      · rw [htn, show (binEdges F.data w).length - 2 + 1
            = (binEdges F.data w).length - 1 by omega, ← hveq]
    · rw [hcolD, if_neg hveq]
      have hvlt : F.data.getD i 0
          < (binEdges F.data w).getD ((binEdges F.data w).length - 1) 0 := by
        rw [hlast]
        exact lt_of_le_of_ne (le_trans hvM hlast_ge) (by rw [← hlast]; exact hveq)
      have hkn1 : digitize (F.data.getD i 0) (binEdges F.data w)
          ≤ (binEdges F.data w).length - 1 := by
        by_contra hcon
        have hkeq : digitize (F.data.getD i 0) (binEdges F.data w)
            = (binEdges F.data w).length := by omega
        have := hs1 ((binEdges F.data w).length - 1) (by omega)
        linarith
      have htn : ((digitize (F.data.getD i 0) (binEdges F.data w) : ℤ) - 1).toNat
          = digitize (F.data.getD i 0) (binEdges F.data w) - 1 := by omega
      refine ⟨by omega, by omega, ?_, ?_, fun hcontra => absurd hcontra hveq⟩
      · rw [htn]
        exact hs1 _ (by omega)
      · rw [htn, show digitize (F.data.getD i 0) (binEdges F.data w) - 1 + 1
            = digitize (F.data.getD i 0) (binEdges F.data w) by omega]
        exact le_of_lt (hs2 _ le_rfl (by omega))

/-- Witness for the amended C7 at a concrete frame ([1, 2] with width 2). -/
theorem create_bins_spec_witness :
    (create_bins ⟨[(1:ℚ), 2], Option.none⟩ 2).2.2.1
      = (binEdges [(1:ℚ), 2] 2).length - 1 :=
  (create_bins_spec ⟨[(1:ℚ), 2], Option.none⟩ 2 (by simp) (by norm_num) (by
    show 1 ≤ (binEdges [(1:ℚ), 2] 2).length - 1
    have h1 : listMinQ [(1:ℚ), 2] = 1 := rfl
    have h2 : listMaxQ [(1:ℚ), 2] = 2 := rfl
    have hedges : binEdges [(1:ℚ), 2] 2 = [0, 2] := by
      rw [binEdges, h1, h2]
      norm_num [arange]
      simp only [show List.range (Int.toNat 2) = [0, 1] from rfl]
      norm_num
    rw [hedges]
    simp)).2.1

/-- Counterexample to claim C4 as stated: with `year = 0` (an int, so the
claim demands no TypeError, but `if year:` is falsy) and `quarters = (5,)`
containing the invalid quarter 5, `filter_stations` validates nothing and
returns normally instead of raising the claimed ValueError. -/
theorem filter_stations_skips_zero_year_validation :
    filter_stations cexStations PyVal.none PyVal.none (PyVal.int 0) [PyVal.int 5]
      = Except.ok cexStations ∧
    (PyVal.int 0).isInstInt = true ∧
    quartersOk [PyVal.int 5] = false := by
  refine ⟨rfl, rfl, ?_⟩
  norm_num [quartersOk, pyEq, PyVal.toNum, PyVal.isInstInt]

/-- Claim C4 (amended): the validations fire only for truthy filter arguments
(Python `if column:` / `if year:` guards): a truthy column not naming a frame
column raises ValueError, a truthy column with value None raises ValueError, a
truthy non-int year raises TypeError, a truthy year with non-empty quarters
containing anything but ints in {1, 2, 3, 4} raises ValueError, and arguments
passing these checks (with the fiscal columns present when read) return a
DataFrame without raising. -/
theorem filter_stations_validation (stations : StFrame) (column value year : PyVal)
    (quarters : List PyVal) :
    (column.truthy = true → columnOk stations column = false →
      filter_stations stations column value year quarters
        = Except.error (PyErr.valueError "Invalid < column > name.")) ∧
    (column.truthy = true → columnOk stations column = true → value = PyVal.none →
      filter_stations stations column value year quarters
        = Except.error (PyErr.valueError "Invalid or missing < value >.")) ∧
    ((column.truthy = false ∨ (columnOk stations column = true ∧ value ≠ PyVal.none)) →
      year.truthy = true → year.isInstInt = false →
      filter_stations stations column value year quarters
        = Except.error (PyErr.typeError "Invalid < year > type.")) ∧
    ((column.truthy = false ∨ (columnOk stations column = true ∧ value ≠ PyVal.none)) →
      year.truthy = true → year.isInstInt = true → "Fiscal Year" ∈ stations.cols →
      quarters ≠ [] → quartersOk quarters = false →
      filter_stations stations column value year quarters
        = Except.error (PyErr.valueError "Only 1-4 quarters can be specified.")) ∧
    ((column.truthy = false ∨ (columnOk stations column = true ∧ value ≠ PyVal.none)) →
      (year.truthy = false ∨ (year.isInstInt = true ∧ "Fiscal Year" ∈ stations.cols ∧
        (quarters = [] ∨ (quartersOk quarters = true ∧ "Fiscal Quarter" ∈ stations.cols)))) →
      ∃ out, filter_stations stations column value year quarters = Except.ok out) := by
  have hmc_ok : ∀ (h : column.truthy = false ∨
      (columnOk stations column = true ∧ value ≠ PyVal.none)),
      ∃ m, maskColumn stations column value = Except.ok m := by
    rintro (hf | ⟨hok, hv⟩)
    · exact ⟨stations.rows.map (fun _ => true), by simp [maskColumn, hf]⟩
    · cases column with
      | str c =>
        have hmem : c ∈ stations.cols := by simpa [columnOk] using hok
        by_cases ht : (PyVal.str c).truthy = true
        · exact ⟨List.zipWith and (stations.rows.map fun _ => true)
            ((colValues stations c).map (fun v => pyEq v value)),
            by simp [maskColumn, ht, hmem, hv]⟩
        · have ht2 : (PyVal.str c).truthy = false := by simpa using ht
          exact ⟨stations.rows.map (fun _ => true), by simp [maskColumn, ht2]⟩
      | none => simp [columnOk] at hok
      | int n => simp [columnOk] at hok
      | float q => simp [columnOk] at hok
      | bool b => simp [columnOk] at hok
  refine ⟨?_, ?_, ?_, ?_, ?_⟩
  · intro ht hok
    have hmc : maskColumn stations column value
        = Except.error (PyErr.valueError "Invalid < column > name.") := by
      cases column with
      | str c =>
        have : ¬ c ∈ stations.cols := by simpa [columnOk] using hok
        simp [maskColumn, ht, this]
      | none => simp [PyVal.truthy] at ht
      | int n => simp [maskColumn, ht]
      | float q => simp [maskColumn, ht]
      | bool b => simp [maskColumn, ht]
    simp [filter_stations, stationsMask, hmc]
  · intro ht hok hv
    have hmc : maskColumn stations column value
        = Except.error (PyErr.valueError "Invalid or missing < value >.") := by
      cases column with
      | str c =>
        have hmem : c ∈ stations.cols := by simpa [columnOk] using hok
        simp [maskColumn, ht, hmem, hv]
      | none => simp [columnOk] at hok
      | int n => simp [columnOk] at hok
      | float q => simp [columnOk] at hok
      | bool b => simp [columnOk] at hok
    simp [filter_stations, stationsMask, hmc]
  · intro hcol hy hint
    obtain ⟨m, hm⟩ := hmc_ok hcol
    have hmy : maskYear stations year quarters m
        = Except.error (PyErr.typeError "Invalid < year > type.") := by
      simp [maskYear, hy, hint]
    simp [filter_stations, stationsMask, hm, hmy]
  · intro hcol hy hint hfy hq hqok
    obtain ⟨m, hm⟩ := hmc_ok hcol
    have hmy : maskYear stations year quarters m
        = Except.error (PyErr.valueError "Only 1-4 quarters can be specified.") := by
      simp [maskYear, hy, hint, hfy, hq, hqok]
    simp [filter_stations, stationsMask, hm, hmy]
  · intro hcol hyear
    obtain ⟨m, hm⟩ := hmc_ok hcol
    have hmy : ∃ m2, maskYear stations year quarters m = Except.ok m2 := by
      rcases hyear with hf | ⟨hint, hfy, hrest⟩
      · exact ⟨m, by simp [maskYear, hf]⟩
      · by_cases hy : year.truthy = true
        · rcases hrest with hq | ⟨hqok, hfq⟩
          · exact ⟨List.zipWith and m
              ((colValues stations "Fiscal Year").map (fun v => pyEq v year)),
              by simp [maskYear, hy, hint, hfy, hq]⟩
          · by_cases hq : quarters = []
            · exact ⟨List.zipWith and m
                ((colValues stations "Fiscal Year").map (fun v => pyEq v year)),
                by simp [maskYear, hy, hint, hfy, hq]⟩
            · exact ⟨List.zipWith and
                (List.zipWith and m
                  ((colValues stations "Fiscal Year").map (fun v => pyEq v year)))
                ((colValues stations "Fiscal Quarter").map
                  (fun v => quarters.any (fun q => pyEq v q))),
                by simp [maskYear, hy, hint, hfy, hq, hqok, hfq]⟩
        · have hy2 : year.truthy = false := by simpa using hy
          exact ⟨m, by simp [maskYear, hy2]⟩
    obtain ⟨m2, hm2⟩ := hmy
    by_cases hall : m2.all (fun b => b) = true
    · exact ⟨stations, by simp [filter_stations, stationsMask, hm, hm2, hall]⟩
    · exact ⟨⟨stations.cols, resetIndex (applyMask stations.rows m2)⟩,
        by simp [filter_stations, stationsMask, hm, hm2, hall]⟩

/-- Witness for the amended C4: a truthy column name absent from the frame
raises the invalid-column ValueError. -/
theorem filter_stations_validation_witness :
    filter_stations cexStations (PyVal.str "Nope") (PyVal.int 1) PyVal.none []
      = Except.error (PyErr.valueError "Invalid < column > name.") :=
  (filter_stations_validation cexStations (PyVal.str "Nope") (PyVal.int 1)
    PyVal.none []).1 rfl (by decide)

/-! ### Length invariants of the filter mask (for C9) -/

theorem maskColumn_length {s : StFrame} {column value : PyVal} {m : List Bool}
    (h : maskColumn s column value = Except.ok m) : m.length = s.rows.length := by
  unfold maskColumn at h
  repeat split at h
  all_goals simp_all [colValues]
  all_goals rw [← h]
  all_goals simp [List.length_zipWith]

theorem maskYear_length {s : StFrame} {year : PyVal} {quarters : List PyVal}
    {m m2 : List Bool} (hlen : m.length = s.rows.length)
    (h : maskYear s year quarters m = Except.ok m2) : m2.length = s.rows.length := by
  unfold maskYear at h
  repeat split at h
  all_goals simp_all [colValues]
  all_goals rw [← h]
  all_goals simp [List.length_zipWith, hlen]

theorem stationsMask_length {s : StFrame} {c v y : PyVal} {qs : List PyVal}
    {mask : List Bool} (h : stationsMask s c v y qs = Except.ok mask) :
    mask.length = s.rows.length := by
  unfold stationsMask at h
  rcases hm : maskColumn s c v with e | m
  · rw [hm] at h
    simp at h
  · rw [hm] at h
    exact maskYear_length (maskColumn_length hm) h

theorem applyMask_length_lt {rows : List (ℕ × List PyVal)} {mask : List Bool}
    (hlen : mask.length = rows.length)
    (hfalse : mask.all (fun b => b) = false) :
    (applyMask rows mask).length < rows.length := by
  induction rows generalizing mask with
  | nil =>
    have hnil : mask = [] := List.length_eq_zero.1 (by simpa using hlen)
    rw [hnil] at hfalse
    simp at hfalse
  | cons r rs ih =>
    cases mask with
    | nil => simp at hlen
    | cons b bs =>
      have hlen2 : bs.length = rs.length := by simpa using hlen
      cases b with
      | true =>
        have hbs : bs.all (fun x => x) = false := by simpa using hfalse
        have hexp : applyMask (r :: rs) (true :: bs) = r :: applyMask rs bs := by
          simp [applyMask, List.filter_cons]
        rw [hexp]
        have := ih hlen2 hbs
        simp only [List.length_cons]
        omega
      | false =>
        have hexp : applyMask (r :: rs) (false :: bs) = applyMask rs bs := by
          simp [applyMask, List.filter_cons]
        have hle : (applyMask rs bs).length ≤ rs.length := by
          have h1 : ((rs.zip bs).filter (fun p => p.2)).length ≤ (rs.zip bs).length :=
            List.length_filter_le _ _
          have h2 : (rs.zip bs).length ≤ rs.length := by
            simp [List.length_zip]
          simp only [applyMask, List.length_map]
          omega
        rw [hexp]
        simp only [List.length_cons]
        omega

/-- Claim C9: when the mask stays all True — in particular when column, value
and year are all None — `filter_stations` returns the input frame itself with
its original index; the index is reset only when at least one row is dropped. -/
theorem filter_stations_identity (s : StFrame) (c v y : PyVal)
    (qs : List PyVal) (mask : List Bool) :
    (filter_stations s PyVal.none PyVal.none PyVal.none qs = Except.ok s) ∧
    (stationsMask s c v y qs = Except.ok mask →
      (mask.all (fun b => b) = true → filter_stations s c v y qs = Except.ok s) ∧
      (mask.all (fun b => b) = false →
        filter_stations s c v y qs
          = Except.ok ⟨s.cols, resetIndex (applyMask s.rows mask)⟩ ∧
        (applyMask s.rows mask).length < s.rows.length)) := by
  constructor
  · have hm : stationsMask s PyVal.none PyVal.none PyVal.none qs
        = Except.ok (s.rows.map fun _ => true) := rfl
    show (match stationsMask s PyVal.none PyVal.none PyVal.none qs with
      | .error e => Except.error e
      | .ok mask => if mask.all (fun b => b) then Except.ok s
          else Except.ok ⟨s.cols, resetIndex (applyMask s.rows mask)⟩) = Except.ok s
    rw [hm]
    simp
  · intro hmask
    constructor
    · intro hall
      simp [filter_stations, hmask, hall]
    · intro hfalse
      exact ⟨by simp [filter_stations, hmask, hfalse],
        applyMask_length_lt (stationsMask_length hmask) hfalse⟩

/-- Witness for C9: the all-None call returns the frame itself, and so does a
column filter whose mask stays all True. -/
theorem filter_stations_identity_witness :
    filter_stations wStations PyVal.none PyVal.none PyVal.none []
        = Except.ok wStations ∧
    filter_stations wStations (PyVal.str "Service") (PyVal.str "Acela")
        PyVal.none [] = Except.ok wStations :=
  ⟨(filter_stations_identity wStations PyVal.none PyVal.none PyVal.none [] []).1,
   ((filter_stations_identity wStations (PyVal.str "Service") (PyVal.str "Acela")
      PyVal.none [] [true]).2 rfl).1 (by decide)⟩

/-! ### Totality and transitivity of the four sort keys -/

theorem routeLe_total (pa pb sa sb : ℚ) :
    routeLe pa pb sa sb = true ∨ routeLe pb pa sb sa = true := by
  unfold routeLe
  rcases lt_trichotomy pa pb with h | h | h
  · left; simp [h]
  · subst h
    rcases le_total sa sb with h2 | h2
    · left; simp [h2]
    · right; simp [h2]
  · right; simp [h]

theorem routeLe_trans {pa pb pc sa sb sc : ℚ}
    (h1 : routeLe pa pb sa sb = true) (h2 : routeLe pb pc sb sc = true) :
    routeLe pa pc sa sc = true := by
  unfold routeLe at h1 h2 ⊢
  simp only [Bool.or_eq_true, Bool.and_eq_true, decide_eq_true_eq] at h1 h2 ⊢
  rcases h1 with h1 | ⟨h1e, h1s⟩ <;> rcases h2 with h2 | ⟨h2e, h2s⟩
  · exact Or.inl (lt_trans h1 h2)
  · exact Or.inl (h2e ▸ h1)
  · exact Or.inl (h1e ▸ h2)
  · exact Or.inr ⟨h1e.trans h2e, le_trans h1s h2s⟩

theorem routeLe_trans_rev {pa pb pc sa sb sc : ℚ}
    (h1 : routeLe pb pa sa sb = true) (h2 : routeLe pc pb sb sc = true) :
    routeLe pc pa sa sc = true := by
  unfold routeLe at h1 h2 ⊢
  simp only [Bool.or_eq_true, Bool.and_eq_true, decide_eq_true_eq] at h1 h2 ⊢
  rcases h1 with h1 | ⟨h1e, h1s⟩ <;> rcases h2 with h2 | ⟨h2e, h2s⟩
  · exact Or.inl (lt_trans h2 h1)
  · exact Or.inl (h2e ▸ h1)
  · exact Or.inl (h1e ▸ h2)
  · exact Or.inr ⟨h2e.trans h1e, le_trans h1s h2s⟩

theorem sorted_insertionSort_of (r : RouteRow → RouteRow → Prop) [DecidableRel r]
    (htot : ∀ a b, r a b ∨ r b a) (htr : ∀ a b c, r a b → r b c → r a c)
    (l : List RouteRow) : List.Sorted r (List.insertionSort r l) := by
  haveI : IsTotal RouteRow r := ⟨htot⟩
  haveI : IsTrans RouteRow r := ⟨fun a b c => htr a b c⟩
  exact List.sorted_insertionSort r l

theorem sorted_relNB (l : List RouteRow) :
    List.Sorted relNB (List.insertionSort relNB l) :=
  sorted_insertionSort_of relNB (fun a b => routeLe_total a.lat b.lat a.lon b.lon)
    (fun _ _ _ h1 h2 => routeLe_trans h1 h2) l

theorem sorted_relSB (l : List RouteRow) :
    List.Sorted relSB (List.insertionSort relSB l) :=
  sorted_insertionSort_of relSB (fun a b => routeLe_total b.lat a.lat a.lon b.lon)
    (fun _ _ _ h1 h2 => routeLe_trans_rev h1 h2) l

theorem sorted_relEB (l : List RouteRow) :
    List.Sorted relEB (List.insertionSort relEB l) :=
  sorted_insertionSort_of relEB (fun a b => routeLe_total a.lon b.lon a.lat b.lat)
    (fun _ _ _ h1 h2 => routeLe_trans h1 h2) l

theorem sorted_relWB (l : List RouteRow) :
    List.Sorted relWB (List.insertionSort relWB l) :=
  sorted_insertionSort_of relWB (fun a b => routeLe_total b.lon a.lon a.lat b.lat)
    (fun _ _ _ h1 h2 => routeLe_trans_rev h1 h2) l

theorem pairwise_trivial (l : List RouteRow) :
    List.Pairwise (fun (_ _ : RouteRow) => True) l := by
  induction l with
  | nil => exact List.Pairwise.nil
  | cons a t ih => exact List.Pairwise.cons (fun _ _ => trivial) ih

/-- Claim C10: with no station_order, `create_route` raises ValueError exactly
for direction strings outside the eight accepted ones (case-insensitively),
and for accepted directions returns the stations sorted by the corresponding
latitude/longitude key (a permutation of the input, sorted by the direction
relation) without raising. -/
theorem create_route_direction_spec (train : List RouteRow) (direction : String) :
    (create_route train direction Option.none =
      if direction.toLower ∈ acceptedDirections then Except.ok (dirSort direction train)
      else Except.error (PyErr.valueError
        "Direction invalid: choose eastbound, westbound, northbound, or southbound")) ∧
    (dirSort direction train).Perm train ∧
    List.Sorted (dirRel direction) (dirSort direction train) := by
  refine ⟨?_, ?_, ?_⟩
  · show create_route_by_direction train direction = _
    unfold create_route_by_direction
    split
    all_goals simp_all [dirSort, acceptedDirections]
  · unfold dirSort
    split
    all_goals first
      | exact List.perm_insertionSort _ _
      | exact List.Perm.refl _
  · unfold dirRel dirSort
    split
    all_goals (try split)
    all_goals (try simp_all)
    all_goals first
      | exact sorted_relNB train
      | exact sorted_relSB train
      | exact sorted_relEB train
      | exact sorted_relWB train
      | exact pairwise_trivial train

/-- Claim C5: a non-numeric column warns and returns None; a numeric column
returns the dictionary of descriptive statistics, with an additional warning
— not changing the returned dictionary — exactly when the column has missing
values. -/
theorem describe_numeric_column_spec (column : PSeries) :
    ((describe_numeric_column column).2.isSome = column.numericDtype) ∧
    (column.numericDtype = false →
      describe_numeric_column column = (["Provided column is not numeric."], Option.none)) ∧
    (column.numericDtype = true →
      describe_numeric_column column =
        ((if hasMissing column.values = true then
            ["Column contains missing values. Interquartile range (IQR) will not be computed."]
          else []),
         some (descStatsOf column.values))) := by
  refine ⟨?_, ?_, ?_⟩
  · cases h : column.numericDtype <;> simp [describe_numeric_column, h]
  · intro h
    simp [describe_numeric_column, h]
  · intro h
    cases hm : hasMissing column.values <;> simp [describe_numeric_column, h, hm]

/-- Witness for C5: a non-numeric column warns and yields None, and a numeric
column with a missing value warns and still yields the dictionary. -/
theorem describe_numeric_column_spec_witness :
    describe_numeric_column ⟨"x", false, [some 1]⟩
        = (["Provided column is not numeric."], Option.none) ∧
    describe_numeric_column ⟨"y", true, [some 1, Option.none]⟩
        = (["Column contains missing values. Interquartile range (IQR) will not be computed."],
           some (descStatsOf [some 1, Option.none])) :=
  ⟨(describe_numeric_column_spec ⟨"x", false, [some 1]⟩).2.1 rfl,
   by
    have h := (describe_numeric_column_spec ⟨"y", true, [some 1, Option.none]⟩).2.2 rfl
    simpa using h⟩

/-- Claim C8: for every frame containing the two detraining-customer sum
columns (with nowhere-zero totals, so the quotients exist), the function
returns, row by row, the quotient late/total rounded half-even to the given
number of decimal places. -/
theorem get_late_to_total_detrain_ratio_spec (frame : DetFrame) (p : ℕ)
    (late total : List ℚ)
    (hl : List.lookup "Late Detraining Customers sum" frame = some late)
    (ht : List.lookup "Total Detraining Customers sum" frame = some total)
    (hnz : ∀ t ∈ total, t ≠ 0) :
    ∃ res, get_late_to_total_detrain_ratio frame p = some res ∧
      res.length = min late.length total.length ∧
      ∀ i, i < res.length →
        res.getD i 0 = roundTo (late.getD i 0 / total.getD i 0) p := by
  refine ⟨(List.zipWith (fun l t => l / t) late total).map (fun x => roundTo x p),
    ?_, ?_, ?_⟩
  · simp [get_late_to_total_detrain_ratio, hl, ht]
  · simp
  · intro i hi
    simp only [List.length_map, List.length_zipWith, lt_min_iff] at hi
    rw [List.getD_eq_getElem?_getD, List.getElem?_map, List.getElem?_zipWith,
      List.getElem?_eq_getElem hi.1, List.getElem?_eq_getElem hi.2,
      List.getD_eq_getElem?_getD, List.getD_eq_getElem?_getD,
      List.getElem?_eq_getElem hi.1, List.getElem?_eq_getElem hi.2]
    rfl

/-- Witness for C8 at a concrete frame. -/
theorem get_late_to_total_detrain_ratio_spec_witness :
    ∃ res, get_late_to_total_detrain_ratio wDetrainRatio 4 = some res ∧
      res.length = min ([(1:ℚ)].length) ([(4:ℚ)].length) ∧
      ∀ i, i < res.length →
        res.getD i 0 = roundTo ([(1:ℚ)].getD i 0 / [(4:ℚ)].getD i 0) 4 :=
  get_late_to_total_detrain_ratio_spec wDetrainRatio 4 [1] [4] rfl rfl (by decide)

/-- Counterexample to claim C3 as stated: on a schema-conforming frame, the
non-empty choice `agg_columns = ["Total Detraining Customers"]`,
`agg_funcs = ["mean"]` produces no "... sum" columns, so the late-to-total
ratio lookup fails (a pandas KeyError) and `get_sum_stats` does not return a
summary DataFrame. -/
theorem get_sum_stats_mean_only_fails :
    get_sum_stats cexDetrain ["Total Detraining Customers"] ["mean"] 4
      = Option.none := rfl

/-! ### Lemmas for the amended C3 -/

theorem seqOption_some_of_forall {α : Type} :
    ∀ (l : List (Option α)), (∀ x ∈ l, x ≠ Option.none) →
      ∃ r, seqOption l = some r ∧ r.map some = l := by
  intro l
  induction l with
  | nil => exact fun _ => ⟨[], rfl, rfl⟩
  | cons x t ih =>
    intro h
    obtain ⟨r, hr, hmap⟩ := ih (fun y hy => h y (List.mem_cons_of_mem _ hy))
    cases x with
    | none => exact absurd rfl (h _ (List.mem_cons_self _ _))
    | some a =>
      refine ⟨a :: r, ?_, by simp [hmap]⟩
      simp [seqOption, hr]

theorem applyAgg_ne_none {f : String} {l : List ℚ}
    (hf : f ∈ ["sum", "mean", "min", "max", "count", "median"]) (hl : l ≠ []) :
    applyAgg f l ≠ Option.none := by
  have hne : l.isEmpty = false := by simpa using hl
  fin_cases hf <;> simp [applyAgg, hne]

theorem lookup_mem {α β : Type} [BEq α] [LawfulBEq α] {l : List (α × β)}
    {k : α} {v : β} (h : List.lookup k l = some v) : (k, v) ∈ l := by
  obtain ⟨l1, l2, rfl, _⟩ := List.lookup_eq_some_iff.1 h
  exact List.mem_append.2 (Or.inr (List.mem_cons_self _ _))

theorem lookup_map_snd {α β γ : Type} [BEq α] (g : β → γ) (l : List (α × β))
    (k : α) :
    List.lookup k (l.map (fun p => (p.1, g p.2))) = (List.lookup k l).map g := by
  induction l with
  | nil => rfl
  | cons p t ih =>
    rcases p with ⟨a, b⟩
    by_cases hk : k == a
    · simp [List.lookup_cons, hk]
    · simp only [Bool.not_eq_true] at hk
      simp [List.lookup_cons, hk, ih]

theorem lookup_isSome_of_mem_keys {α β : Type} [BEq α] [LawfulBEq α]
    {l : List (α × β)} {k : α} (h : k ∈ l.map Prod.fst) :
    ∃ v, List.lookup k l = some v := by
  have : (List.lookup k l).isSome := by
    rw [List.lookup_isSome_iff]
    obtain ⟨p, hp, hfst⟩ := List.mem_map.1 h
    exact ⟨p, hp, by simp [hfst]⟩
  exact Option.isSome_iff_exists.1 this

/-- Claim C3 (amended): on a frame with the detraining schema (non-empty
columns including the two detraining-customer columns and the average-minutes
-late column), and for aggregation choices drawn from the supported
aggregation names that include summing and averaging the detraining-customer
columns, `get_sum_stats` returns a summary frame containing the train-arrival
count, the requested per-column aggregates (in particular all means and
sums), the late-to-total detraining ratio, the mean late arrival time, and
the on-time detraining total. -/
theorem get_sum_stats_spec (frame : DetFrame) (agg_columns agg_funcs : List String)
    (precision : ℕ)
    (H1 : ∀ f ∈ agg_funcs, f ∈ ["sum", "mean", "min", "max", "count", "median"])
    (H2 : ∀ cv ∈ frame, cv.2 ≠ ([] : List ℚ))
    (H3 : "Late Detraining Customers" ∈ agg_columns)
    (H4 : "Late Detraining Customers" ∈ frame.map Prod.fst)
    (H5 : "Total Detraining Customers" ∈ agg_columns)
    (H6 : "Total Detraining Customers" ∈ frame.map Prod.fst)
    (H7 : "sum" ∈ agg_funcs)
    (H8 : "mean" ∈ agg_funcs)
    (H9 : "Late Detraining Customers Avg Min Late" ∈ frame.map Prod.fst) :
    ∃ out, get_sum_stats frame agg_columns agg_funcs precision = some out ∧
      "Train Arrivals" ∈ out.map Prod.fst ∧
      "Late to Total Detraining Customers Ratio" ∈ out.map Prod.fst ∧
      "Late Detraining Customers Avg Min Late mean" ∈ out.map Prod.fst ∧
      "Total On Time Detraining Customers sum" ∈ out.map Prod.fst ∧
      (∀ c ∈ agg_columns, c ∈ frame.map Prod.fst →
        ∀ f ∈ agg_funcs, (c ++ " " ++ f) ∈ out.map Prod.fst) := by
  -- the flattened aggregation table exists
  obtain ⟨stats, hstats, hsmap⟩ := seqOption_some_of_forall
    ((frame.filter (fun cv => decide (cv.1 ∈ agg_columns))).flatMap
      (fun cv => agg_funcs.map (fun f =>
        (applyAgg f cv.2).map (fun x => ((cv.1, f), roundTo x 4))))) (by
    intro x hx
    obtain ⟨cv, hcv, hx2⟩ := List.mem_flatMap.1 hx
    obtain ⟨f, hfmem, rfl⟩ := List.mem_map.1 hx2
    have hcv2 : cv ∈ frame := (List.mem_filter.1 hcv).1
    have := applyAgg_ne_none (H1 f hfmem) (H2 cv hcv2)
    intro hcontra
    rcases ha : applyAgg f cv.2 with _ | v
    · exact this ha
    · rw [ha] at hcontra
      simp at hcontra)
  have hcompute : compute_sum_stats frame agg_columns agg_funcs 4 = some stats := hstats
  -- every requested (column, function) pair appears among the stats keys
  have keyIn : ∀ (c : String) (vals : List ℚ) (f : String), (c, vals) ∈ frame →
      c ∈ agg_columns → f ∈ agg_funcs → (c, f) ∈ stats.map Prod.fst := by
    intro c vals f hcv hc hf
    have hmemflat : ((applyAgg f vals).map (fun x => ((c, f), roundTo x 4)))
        ∈ (frame.filter (fun cv => decide (cv.1 ∈ agg_columns))).flatMap
          (fun cv => agg_funcs.map (fun f2 =>
            (applyAgg f2 cv.2).map (fun x => ((cv.1, f2), roundTo x 4)))) := by
      refine List.mem_flatMap.2 ⟨(c, vals), ?_, ?_⟩
      · exact List.mem_filter.2 ⟨hcv, by simpa using hc⟩
      · exact List.mem_map.2 ⟨f, hf, rfl⟩
    rw [← hsmap] at hmemflat
    obtain ⟨y, hy, hyeq⟩ := List.mem_map.1 hmemflat
    rcases ha : applyAgg f vals with _ | v
    · exact absurd ha (applyAgg_ne_none (H1 f hf) (H2 (c, vals) hcv))
    · rw [ha] at hyeq
      simp at hyeq
      exact List.mem_map.2 ⟨y, hy, by rw [hyeq]⟩
  -- the flattened single-row frame and its keys
  have keyFlat : ∀ (c : String) (f : String), (c, f) ∈ stats.map Prod.fst →
      (c ++ " " ++ f) ∈ (("Train Arrivals", (nrows frame : ℚ))
        :: stats.map (fun p => (p.1.1 ++ " " ++ p.1.2, p.2))).map Prod.fst := by
    intro c f hcf
    obtain ⟨p, hp, hpeq⟩ := List.mem_map.1 hcf
    refine List.mem_cons_of_mem _ ?_
    refine List.mem_map.2 ⟨(p.1.1 ++ " " ++ p.1.2, p.2), List.mem_map.2 ⟨p, hp, rfl⟩, ?_⟩
    rw [hpeq]
  obtain ⟨lateVals, hlateMem⟩ := List.mem_map.1 H4
  obtain ⟨totalVals, htotalMem⟩ := List.mem_map.1 H6
  have hlate' : ("Late Detraining Customers", lateVals.2) ∈ frame := by
    rcases lateVals with ⟨c1, v1⟩
    rcases hlateMem with ⟨hm, rfl⟩
    exact hm
  have htotal' : ("Total Detraining Customers", totalVals.2) ∈ frame := by
    rcases totalVals with ⟨c1, v1⟩
    rcases htotalMem with ⟨hm, rfl⟩
    exact hm
  have hlateKey : ("Late Detraining Customers sum")
      ∈ (("Train Arrivals", (nrows frame : ℚ))
        :: stats.map (fun p => (p.1.1 ++ " " ++ p.1.2, p.2))).map Prod.fst :=
    keyFlat _ _ (keyIn _ _ _ hlate' H3 H7)
  have htotalKey : ("Total Detraining Customers sum")
      ∈ (("Train Arrivals", (nrows frame : ℚ))
        :: stats.map (fun p => (p.1.1 ++ " " ++ p.1.2, p.2))).map Prod.fst :=
    keyFlat _ _ (keyIn _ _ _ htotal' H5 H7)
  obtain ⟨lateQ, hlateQ⟩ := lookup_isSome_of_mem_keys hlateKey
  obtain ⟨totalQ, htotalQ⟩ := lookup_isSome_of_mem_keys htotalKey
  -- the ratio Series on the one-row frame
  have hratio : get_late_to_total_detrain_ratio
      ((("Train Arrivals", (nrows frame : ℚ))
        :: stats.map (fun p => (p.1.1 ++ " " ++ p.1.2, p.2))).map
          (fun p => (p.1, [p.2]))) 4
      = some [roundTo (lateQ / totalQ) 4] := by
    rw [get_late_to_total_detrain_ratio,
      lookup_map_snd (fun x => [x]) _ "Late Detraining Customers sum",
      lookup_map_snd (fun x => [x]) _ "Total Detraining Customers sum",
      hlateQ, htotalQ]
    rfl
  -- the mean late arrival time
  obtain ⟨mmlVals, hmmlQ⟩ := lookup_isSome_of_mem_keys H9
  have hmmlne : mmlVals.isEmpty = false := by
    simpa using H2 _ (lookup_mem hmmlQ)
  have hmml : get_mean_min_late frame 4
      = some (roundTo (sumQ mmlVals / (mmlVals.length : ℚ)) 4) := by
    rw [get_mean_min_late, hmmlQ]
    simp [hmmlne]
  refine ⟨("Train Arrivals", (nrows frame : ℚ))
      :: stats.map (fun p => (p.1.1 ++ " " ++ p.1.2, p.2))
      ++ [("Late to Total Detraining Customers Ratio", roundTo (lateQ / totalQ) 4),
          ("Late Detraining Customers Avg Min Late mean",
            roundTo (sumQ mmlVals / (mmlVals.length : ℚ)) 4),
          ("Total On Time Detraining Customers sum", totalQ - lateQ)], ?_, ?_, ?_, ?_, ?_, ?_⟩
  · simp only [get_sum_stats, hcompute, hratio, List.head?_cons, hmml, hlateQ,
      htotalQ, List.cons_append]
  · simp
  · simp
  · simp
  · simp
  · intro c hc hcmem f hf
    obtain ⟨cv, hcvmem⟩ := List.mem_map.1 hcmem
    have hcv' : (c, cv.2) ∈ frame := by
      rcases cv with ⟨c1, v1⟩
      rcases hcvmem with ⟨hm, rfl⟩
      exact hm
    have hk := keyFlat _ _ (keyIn _ _ _ hcv' hc hf)
    simp only [List.map_cons, List.mem_cons, List.map_append, List.mem_append] at hk ⊢
    tauto

/-- Witness for the amended C3 at a concrete schema-conforming frame. -/
theorem get_sum_stats_spec_witness :
    ∃ out, get_sum_stats cexDetrain
        ["Late Detraining Customers", "Total Detraining Customers"]
        ["sum", "mean"] 4 = some out ∧
      "Train Arrivals" ∈ out.map Prod.fst ∧
      "Late to Total Detraining Customers Ratio" ∈ out.map Prod.fst ∧
      "Late Detraining Customers Avg Min Late mean" ∈ out.map Prod.fst ∧
      "Total On Time Detraining Customers sum" ∈ out.map Prod.fst ∧
      (∀ c ∈ ["Late Detraining Customers", "Total Detraining Customers"],
        c ∈ cexDetrain.map Prod.fst →
        ∀ f ∈ ["sum", "mean"], (c ++ " " ++ f) ∈ out.map Prod.fst) :=
  get_sum_stats_spec cexDetrain
    ["Late Detraining Customers", "Total Detraining Customers"] ["sum", "mean"] 4
    (by decide) (by decide) (by decide) (by decide) (by decide) (by decide)
    (by decide) (by decide) (by decide)

end FraAmtrak
